import Mathlib

/-!
Verification development for the rbperf in-kernel Ruby stack walker
(src/src/bpf/rbperf.bpf.c).  The BPF program is shallowly embedded:
remote process memory is an uninterpreted read oracle, 64-bit pointer
arithmetic is Nat arithmetic reduced modulo 2 ^ 64, the BPF hash maps
backing the frame interner are association lists with first-match
lookup and prepend insertion (last-writer-wins), and the tail-call
chain of `walk_ruby_stack` is a bounded recursion guarded by the
program counter exactly as in the source.  Ghost fields (logs of
decoder invocations, interner calls, raw frame reads, and a processed
frame counter) record events without influencing the computation.
-/

set_option linter.unusedVariables false
set_option linter.unnecessarySeqFocus false

/-- Truncation to the 64-bit unsigned range, as performed implicitly by every
u64 arithmetic operation in the BPF program. -/
def u64 (n : Nat) : Nat := n % 2 ^ 64

/-- Wrap-around 64-bit subtraction, as in C unsigned arithmetic. -/
def sub64 (a b : Nat) : Nat := (2 ^ 64 + a % 2 ^ 64 - b % 2 ^ 64) % 2 ^ 64

/-- Modelled from the spec: the compile-time constants of rbperf.h, which is
not under src/ (only rbperf.bpf.c is).  The spec fixes
MAX_STACKS_PER_PROGRAM = 30 and BPF_PROGRAMS_COUNT = 3 as the design
defaults and leaves MAX_STACK and the two character-buffer widths of a
frame record as load-time-fixed but unstated, so the model is
parameterised over all of them together with the struct-offset constants
the C file takes from the header. -/
structure Consts where
  max_stack : Nat
  max_stacks_per_program : Nat
  bpf_programs_count : Nat
  method_name_len : Nat
  path_len : Nat
  iseq_offset : Nat
  body_offset : Nat
  ruby_location_offset : Nat
  path_offset : Nat
  as_offset : Nat
  iseq_encoded_offset : Nat
  rb_value_sizeof : Nat
  path_type_offset : Nat
deriving DecidableEq

/-- Per-Ruby-version offset record, mirroring the fields of
RubyVersionOffsets that rbperf.bpf.c reads from the
version_specific_offsets map. -/
structure RubyVersionOffsets where
  main_thread_offset : Nat
  ec_offset : Nat
  vm_offset : Nat
  vm_size_offset : Nat
  cfp_offset : Nat
  label_offset : Nat
  path_flavour : Nat
  line_info_size_offset : Nat
  line_info_table_offset : Nat
  lineno_offset : Nat
  control_frame_t_sizeof : Nat
deriving DecidableEq

/-- Oracle for reads of the target process's memory (rbperf_read /
rbperf_read_str).  A faulting read is modelled by whatever value the
oracle yields at that address: the C code ignores the error returns of
these reads, so the destination simply holds an unconstrained value. -/
structure Mem where
  read8 : Nat → Nat
  read4 : Nat → Nat
  str : Nat → List Nat

/-- Read of an 8-byte little-endian value (rbperf_read with len 8). -/
def Mem.r8 (m : Mem) (a : Nat) : Nat := u64 (m.read8 a)

/-- Read of a 4-byte value (rbperf_read with len 4). -/
def Mem.r4 (m : Mem) (a : Nat) : Nat := m.read4 a % 2 ^ 32

/-- Modelled from the spec: Ruby object-type mask, from the Ruby headers
included via rbperf.h (not under src/).  The spec calls these the low type
bits of the flags word. -/
def RUBY_T_MASK : Nat := 31

/-- Modelled from the spec: type-bit value of a Ruby string object. -/
def RUBY_T_STRING : Nat := 5

/-- Modelled from the spec: type-bit value of a Ruby array object. -/
def RUBY_T_ARRAY : Nat := 7

/-- Modelled from the spec: the string-is-heap-allocated flag bit tested by
STRING_ON_HEAP in rbperf.h (not under src/). -/
def RSTRING_NOEMBED : Nat := 2 ^ 13

/-- Test of the heap-allocated bit of a Ruby string's flags word
(STRING_ON_HEAP in the source). -/
def STRING_ON_HEAP (flags : Nat) : Bool := flags &&& RSTRING_NOEMBED ≠ 0

/-- Byte content of the NATIVE_METHOD_NAME literal of rbperf.h: the ASCII
characters of the native-frame sentinel, without the terminating NUL. -/
def NATIVE_METHOD_NAME : List Nat :=
  [60, 110, 97, 116, 105, 118, 101, 32, 99, 111, 100, 101, 62]

/-- Effect of bpf_probe_read_..._str on a destination buffer: at most
cap - 1 characters of the source string are copied, a NUL is written after
them, and the bytes of the buffer beyond the written region keep their
previous contents. -/
def strWrite (buf : List Nat) (cap : Nat) (s : List Nat) : List Nat :=
  if cap = 0 then buf
  else
    let n := min s.length (cap - 1)
    s.take n ++ [0] ++ buf.drop (n + 1)

/-- A frame record (RubyFrame): fixed-width method-name and path byte
buffers plus a line number.  Interning identity is structural equality,
matching the byte-identity of the C struct. -/
structure RubyFrame where
  method_name : List Nat
  path : List Nat
  lineno : Nat
deriving DecidableEq

/-- The zero-initialised frame record produced by RubyFrame current_frame = \x7b\x7d
at the top of each walk_ruby_stack invocation. -/
def zeroFrame (k : Consts) : RubyFrame :=
  { method_name := List.replicate k.method_name_len 0
    path := List.replicate k.path_len 0
    lineno := 0 }

/-- Embedding of read_ruby_string: reads the string object's flags word,
then copies the character data (heap pointer or inline) into the buffer
with bpf_probe_read_..._str semantics. -/
def read_ruby_string (m : Mem) (k : Consts) (label : Nat) (buf : List Nat) :
    List Nat :=
  let flags := m.r8 (u64 label)
  if STRING_ON_HEAP flags then
    let char_ptr := m.r8 (u64 (label + k.as_offset + 8))
    strWrite buf buf.length (m.str (u64 char_ptr))
  else
    strWrite buf buf.length (m.str (u64 (label + k.as_offset)))

/-- Embedding of read_ruby_lineno.  The intermediate pos value is computed
and adjusted exactly as in the source, where it is dead code. -/
def read_ruby_lineno (m : Mem) (k : Consts) (vo : RubyVersionOffsets)
    (pc body : Nat) : Nat :=
  if pc = 0 then 0
  else
    let pos_addr := m.r8 (u64 (sub64 pc body + k.iseq_encoded_offset))
    let pos := m.r8 (u64 pos_addr)
    let _pos_adjusted := if pos ≠ 0 then sub64 pos k.rb_value_sizeof else pos
    let line_info_size := m.r4 (u64 (body + vo.line_info_size_offset))
    if line_info_size = 0 then line_info_size
    else
      let info_table := m.r8 (u64 (body + vo.line_info_table_offset))
      m.r4 (u64 (info_table + (line_info_size - 1) * 8 + vo.lineno_offset))

/-- Population phase of read_frame once a usable path object address has
been selected: reads the label pointer and fills path, lineno and
method_name of the current frame record (the unwritten tail bytes of the
two buffers keep their previous contents). -/
def read_frame_populate (m : Mem) (k : Consts) (vo : RubyVersionOffsets)
    (pc body path : Nat) (cf : RubyFrame) : RubyFrame :=
  let label := m.r8 (u64 (body + k.ruby_location_offset + vo.label_offset))
  { method_name := read_ruby_string m k label cf.method_name
    path := read_ruby_string m k path cf.path
    lineno := read_ruby_lineno m k vo pc body }

/-- Embedding of read_frame: dispatches on the type bits of the path
object.  For a string the object itself is the path; for an array with
path_flavour = 1 one extra indirection is taken; for an array with any
other flavour the array pointer is used directly; for any other type the
function returns with the frame record untouched. -/
def read_frame (m : Mem) (k : Consts) (vo : RubyVersionOffsets)
    (pc body : Nat) (cf : RubyFrame) : RubyFrame :=
  let path_addr := m.r8 (u64 (body + k.ruby_location_offset + k.path_offset))
  let flags := m.r8 (u64 path_addr)
  if flags &&& RUBY_T_MASK = RUBY_T_STRING then
    read_frame_populate m k vo pc body path_addr cf
  else if flags &&& RUBY_T_MASK = RUBY_T_ARRAY then
    if vo.path_flavour = 1 then
      read_frame_populate m k vo pc body
        (m.r8 (u64 (path_addr + 16 + k.path_type_offset))) cf
    else
      read_frame_populate m k vo pc body path_addr cf
  else
    cf

/-- The two directions of the frame intern table.  The BPF hash maps are
modelled as association lists: lookup returns the first matching entry and
bpf_map_update_elem with BPF_ANY is a prepend, giving last-writer-wins
semantics.  The fixed map capacity (10240) and its eviction behaviour are
not modelled. -/
structure InternState where
  stack_to_id : List (RubyFrame × Nat)
  id_to_stack : List (Nat × RubyFrame)
deriving DecidableEq

/-- Lookup in the stack_to_id direction (bpf_map_lookup_elem keyed by the
frame's bytes). -/
def lookupS2I : List (RubyFrame × Nat) → RubyFrame → Option Nat
  | [], _ => none
  | (f, i) :: t, g => if f = g then some i else lookupS2I t g

/-- Lookup in the id_to_stack direction. -/
def lookupI2S : List (Nat × RubyFrame) → Nat → Option RubyFrame
  | [], _ => none
  | (i, f) :: t, j => if i = j then some f else lookupI2S t j

/-- Embedding of find_or_insert_frame: probe stack_to_id; on a miss draw
the next value of the pseudo-random stream (bpf_get_prandom_u32, a u32)
and insert the pair into both maps. -/
def find_or_insert_frame (st : InternState) (rands : List Nat)
    (f : RubyFrame) : Nat × InternState × List Nat :=
  match lookupS2I st.stack_to_id f with
  | some id => (id, st, rands)
  | none =>
    let r := rands.headD 0 % 2 ^ 32
    (r, ⟨(f, r) :: st.stack_to_id, (r, f) :: st.id_to_stack⟩, rands.tail)

/-- Completion status of a published stack record. -/
inductive StackStatus where
  | complete
  | incomplete
deriving DecidableEq

/-- The emitted RubyStack record.  The C frame array together with its size
field is modelled as the list of appended frame ids (size = frames.length:
the two are always written together at line 240-241 of the source). -/
structure RubyStack where
  timestamp : Nat
  pid : Nat
  cpu : Nat
  syscall_id : Nat
  comm : List Nat
  expected_size : Nat
  stack_status : StackStatus
  frames : List Nat
deriving DecidableEq

/-- The per-CPU SampleState of the source (stack, base_stack, cfp,
ruby_stack_program_count, rb_version) extended with the environment the
walker threads through the shared maps (interner state and the
pseudo-random stream) and with ghost observation logs: prefetch_log
records every cfp whose iseq/pc words were read at the top of a loop
iteration, decode_log every cfp on which read_frame was invoked,
intern_log every frame record passed to find_or_insert_frame, appends the
(id, frame) pair of every id appended to the frame array, and processed
counts loop iterations that passed the termination check.  The ghost
fields influence nothing. -/
structure Ctx where
  stack : RubyStack
  base_stack : Nat
  cfp : Nat
  ruby_stack_program_count : Nat
  rb_version : Nat
  intern : InternState
  rands : List Nat
  appends : List (Nat × RubyFrame)
  decode_log : List Nat
  prefetch_log : List Nat
  intern_log : List RubyFrame
  processed : Nat
deriving DecidableEq

/-- Lines 228-236 of the source: the native-frame branch overwrites only
the first sizeof(NATIVE_METHOD_NAME) = 14 bytes of method_name; the
interpreter branch reads the iseq body pointer and invokes the decoder
(logged in decode_log). -/
def decodeCurrent (m : Mem) (k : Consts) (vo : RubyVersionOffsets)
    (cf : RubyFrame) (c : Ctx) : RubyFrame × Ctx :=
  let iseq_addr := m.r8 (u64 (c.cfp + k.iseq_offset))
  let pc := m.r8 (u64 (m.r8 (u64 (c.cfp + 0))))
  if iseq_addr = 0 then
    ({ cf with
        method_name :=
          strWrite cf.method_name (NATIVE_METHOD_NAME.length + 1)
            NATIVE_METHOD_NAME },
      c)
  else
    let body := m.r8 (u64 (iseq_addr + k.body_offset))
    (read_frame m k vo pc body cf,
      { c with decode_log := c.decode_log ++ [c.cfp] })

/-- Lines 238-242 of the source: if the current size is below MAX_STACK
(the C index is also checked nonnegative, which is vacuous here), intern
the frame and append the returned id, bumping the size. -/
def appendFrame (k : Consts) (cf : RubyFrame) (c : Ctx) : Ctx :=
  if c.stack.frames.length < k.max_stack then
    match find_or_insert_frame c.intern c.rands cf with
    | (id, st, rs) =>
      { c with
          stack := { c.stack with frames := c.stack.frames ++ [id] }
          intern := st
          rands := rs
          appends := c.appends ++ [(id, cf)]
          intern_log := c.intern_log ++ [cf] }
  else c

/-- Line 244 of the source: advance cfp by one control frame (64-bit
wrap-around); the ghost processed counter is bumped. -/
def advance (vo : RubyVersionOffsets) (c : Ctx) : Ctx :=
  { c with
      cfp := u64 (c.cfp + vo.control_frame_t_sizeof)
      processed := c.processed + 1 }

/-- One iteration of the unrolled loop of walk_ruby_stack (lines 218-245):
read the iseq and pc words of the current frame (recorded in
prefetch_log), break if cfp has passed base_stack, otherwise decode the
frame into the scratch record, append it if there is room, and advance
cfp.  Returns the updated state and the scratch record for the next
iteration, or none when the loop breaks. -/
def frameStep (m : Mem) (k : Consts) (vo : RubyVersionOffsets)
    (cf : RubyFrame) (c : Ctx) : Ctx × Option RubyFrame :=
  let c1 : Ctx := { c with prefetch_log := c.prefetch_log ++ [c.cfp] }
  if c.base_stack < c.cfp then (c1, none)
  else
    let dc := decodeCurrent m k vo cf c1
    (advance vo (appendFrame k dc.1 dc.2), some dc.1)

/-- The unrolled frame loop: up to the given number of iterations,
threading the scratch frame record across iterations (the source zeroes it
once per program invocation, not per frame). -/
def runFrames (m : Mem) (k : Consts) (vo : RubyVersionOffsets) :
    Nat → RubyFrame → Ctx → Ctx
  | 0, _, c => c
  | n + 1, cf, c =>
    match frameStep m k vo cf c with
    | (c1, none) => c1
    | (c1, some cf1) => runFrames m k vo n cf1 c1

/-- One invocation of the walk_ruby_stack program (lines 195-245 up to the
tail-call decision): bump ruby_stack_program_count, zero the scratch
frame record, and run up to MAX_STACKS_PER_PROGRAM loop iterations. -/
def walk_ruby_stack (m : Mem) (k : Consts) (vo : RubyVersionOffsets)
    (c : Ctx) : Ctx :=
  runFrames m k vo k.max_stacks_per_program (zeroFrame k)
    { c with ruby_stack_program_count := c.ruby_stack_program_count + 1 }

theorem frameStep_program_count (m : Mem) (k : Consts)
    (vo : RubyVersionOffsets) (cf : RubyFrame) (c : Ctx) :
    (frameStep m k vo cf c).1.ruby_stack_program_count =
      c.ruby_stack_program_count := by
  unfold frameStep decodeCurrent appendFrame advance
  dsimp only
  split
  · rfl
  · split <;> split <;> rfl

theorem runFrames_program_count (m : Mem) (k : Consts)
    (vo : RubyVersionOffsets) :
    ∀ (n : Nat) (cf : RubyFrame) (c : Ctx),
      (runFrames m k vo n cf c).ruby_stack_program_count =
        c.ruby_stack_program_count := by
  intro n
  induction n with
  | zero => intro cf c; rfl
  | succ n ih =>
    intro cf c
    unfold runFrames
    rcases h : frameStep m k vo cf c with ⟨c1, o⟩
    have hc : c1.ruby_stack_program_count = c.ruby_stack_program_count := by
      have := frameStep_program_count m k vo cf c
      rw [h] at this; exact this
    cases o with
    | none => simpa using hc
    | some cf1 => simp [ih cf1 c1, hc]

theorem walk_ruby_stack_program_count (m : Mem) (k : Consts)
    (vo : RubyVersionOffsets) (c : Ctx) :
    (walk_ruby_stack m k vo c).ruby_stack_program_count =
      c.ruby_stack_program_count + 1 := by
  unfold walk_ruby_stack
  rw [runFrames_program_count]

/-- Line 256 of the source: the final status write before the record is
handed to the output channel. -/
def finalize (c : Ctx) : Ctx :=
  { c with
      stack :=
        { c.stack with
            stack_status :=
              if c.base_stack < c.cfp then StackStatus.complete
              else StackStatus.incomplete } }

/-- The tail-call chain of walk_ruby_stack: each invocation looks up the
version offsets (returning silently, with no publication, if they are
missing), runs one program invocation, and either tail-calls itself (when
cfp has not passed base_stack and the program count is still below
BPF_PROGRAMS_COUNT) or finalises and publishes.  some fin is the state
whose stack record is published; none means the chain aborted without
publishing. -/
def walk_ruby_stack_chain (m : Mem) (k : Consts)
    (offsets : Nat → Option RubyVersionOffsets) (c : Ctx) : Option Ctx :=
  match offsets c.rb_version with
  | none => none
  | some vo =>
    let c1 := walk_ruby_stack m k vo c
    if h : c1.cfp ≤ c1.base_stack ∧
        c1.ruby_stack_program_count < k.bpf_programs_count then
      walk_ruby_stack_chain m k offsets c1
    else
      some (finalize c1)
termination_by k.bpf_programs_count - c.ruby_stack_program_count
decreasing_by
  have hc := walk_ruby_stack_program_count m k vo c
  rw [hc] at h
  omega

/-- The ProcessData record of the pid_to_rb_thread map. -/
structure ProcessData where
  rb_frame_addr : Nat
  rb_version : Nat
  start_time : Nat
deriving DecidableEq

/-- Load-time event-type variable: only the syscall variant triggers the
syscall-id read. -/
inductive EventType where
  | unknown
  | syscall
deriving DecidableEq

/-- Inputs of one sampled event that the entry program obtains from the
kernel rather than from target-process memory: the current pid, whether
bpf_get_current_task returned a task, the task's start_time field, the
clock, the CPU id, the command name, and the value a syscall-id read
would produce. -/
structure EventCtx where
  pid : Nat
  task_ok : Bool
  task_start_time : Nat
  ktime : Nat
  cpu : Nat
  comm : List Nat
  syscall_nr : Nat
deriving DecidableEq

/-- Result of one run of the entry program: the (possibly backfilled)
ProcessData the pid maps to afterwards, and the primed SampleState handed
to the continuation program by the tail call, if the entry did not
abort. -/
structure OnEventResult where
  process_data : Option ProcessData
  primed : Option Ctx
deriving DecidableEq

/-- Lines 293-307 of the source: the PID-reuse guard.  Returns the
record to continue with (backfilled on first sight) or none when the
recorded start time differs from the observed one. -/
def pid_race_check (enable : Bool) (pd : ProcessData) (observed : Nat) :
    Option ProcessData :=
  if enable then
    if pd.start_time = 0 then some { pd with start_time := observed }
    else if pd.start_time ≠ observed then none
    else some pd
  else some pd

/-- Lines 323-371 of the source: the pointer chase through the target
process and the initialisation of the per-CPU SampleState, ending just
before the tail call into the stack-reading program. -/
def prime_sample (m : Mem) (k : Consts) (vo : RubyVersionOffsets)
    (event_type : EventType) (ev : EventCtx) (rb_frame_addr rb_version : Nat)
    (intern0 : InternState) (rands0 : List Nat) : Ctx :=
  let ruby_current_thread_addr := m.r8 (u64 rb_frame_addr)
  let main_thread_addr :=
    m.r8 (u64 (ruby_current_thread_addr + vo.main_thread_offset))
  let ec_addr := m.r8 (u64 (main_thread_addr + vo.ec_offset))
  let thread_stack_content := m.r8 (u64 (ec_addr + vo.vm_offset))
  let thread_stack_size := m.r8 (u64 (ec_addr + vo.vm_size_offset))
  let base_stack :=
    sub64 (thread_stack_content + k.rb_value_sizeof * thread_stack_size)
      (2 * vo.control_frame_t_sizeof)
  let cfp := m.r8 (u64 (ec_addr + vo.cfp_offset))
  { stack :=
      { timestamp := ev.ktime
        pid := ev.pid
        cpu := ev.cpu
        syscall_id :=
          if event_type = EventType.syscall then ev.syscall_nr else 0
        comm := ev.comm
        expected_size := sub64 base_stack cfp / vo.control_frame_t_sizeof
        stack_status := StackStatus.complete
        frames := [] }
    base_stack := base_stack
    cfp := u64 (cfp + vo.control_frame_t_sizeof)
    ruby_stack_program_count := 0
    rb_version := rb_version
    intern := intern0
    rands := rands0
    appends := []
    decode_log := []
    prefetch_log := []
    intern_log := []
    processed := 0 }

/-- Embedding of the entry program on_event (lines 270-377): look up the
pid; drop silently if it is unregistered or its thread-global address is
zero; drop if the task pointer is null; run the PID-reuse guard; look up
the version offsets; then prime the SampleState and tail-call the
continuation. -/
def on_event (m : Mem) (k : Consts)
    (pid_to_rb_thread : Nat → Option ProcessData)
    (version_specific_offsets : Nat → Option RubyVersionOffsets)
    (enable_pid_race_detector : Bool) (event_type : EventType)
    (ev : EventCtx) (intern0 : InternState) (rands0 : List Nat) :
    OnEventResult :=
  match pid_to_rb_thread ev.pid with
  | none => ⟨none, none⟩
  | some pd =>
    if pd.rb_frame_addr = 0 then ⟨some pd, none⟩
    else if ev.task_ok = false then ⟨some pd, none⟩
    else
      match pid_race_check enable_pid_race_detector pd ev.task_start_time with
      | none => ⟨some pd, none⟩
      | some pd1 =>
        match version_specific_offsets pd1.rb_version with
        | none => ⟨some pd1, none⟩
        | some vo =>
          ⟨some pd1,
            some (prime_sample m k vo event_type ev pd1.rb_frame_addr
              pd1.rb_version intern0 rands0)⟩

/-- One full sampled event: the entry program followed, when it tail-calls,
by the walk_ruby_stack chain.  The returned list holds the records written
to the output channel (ring or perf buffer) for this event. -/
def sampleEvent (m : Mem) (k : Consts)
    (pid_to_rb_thread : Nat → Option ProcessData)
    (version_specific_offsets : Nat → Option RubyVersionOffsets)
    (enable_pid_race_detector : Bool) (event_type : EventType)
    (ev : EventCtx) (intern0 : InternState) (rands0 : List Nat) :
    List RubyStack :=
  match (on_event m k pid_to_rb_thread version_specific_offsets
      enable_pid_race_detector event_type ev intern0 rands0).primed with
  | none => []
  | some c =>
    match walk_ruby_stack_chain m k version_specific_offsets c with
    | none => []
    | some fin => [fin.stack]

/-!
Concrete instantiations used by witnesses and counterexamples.  The
version-offset record V0 places the interpreter pointer chain at offset 0,
the label at offset 4, and uses 8-byte control frames; the various Consts
records pick small buffer widths so that concrete runs evaluate quickly.
-/

/-- Agreement of the two intern maps: whenever stack_to_id maps a frame to
an id, id_to_stack maps that id back to the same frame. -/
def InternWF (st : InternState) : Prop :=
  ∀ f i, lookupS2I st.stack_to_id f = some i →
    lookupI2S st.id_to_stack i = some f

/-- Version offsets shared by the concrete scenarios. -/
def V0 : RubyVersionOffsets := ⟨0, 0, 0, 0, 0, 4, 0, 0, 0, 0, 8⟩

/-- Offset table holding V0 at version tag 0. -/
def offs0 : Nat → Option RubyVersionOffsets :=
  fun v => if v = 0 then some V0 else none

/-- An empty in-progress stack record. -/
def st0 : RubyStack := ⟨0, 42, 0, 0, [], 0, StackStatus.complete, []⟩

/-- Memory in which every read yields zero. -/
def mem0 : Mem := ⟨fun _ => 0, fun _ => 0, fun _ => []⟩

/-- Constants with MAX_STACK = 16 and the frame iseq pointer at offset 16,
body pointer at offset 8, location table at the head of the body. -/
def KA : Consts := ⟨16, 30, 3, 16, 4, 16, 8, 0, 0, 8, 8, 8, 8⟩

/-- Constants like KA but with MAX_STACK = 2, so a walk can overrun the
frame-id array capacity after two frames. -/
def KS : Consts := ⟨2, 30, 3, 16, 4, 16, 8, 0, 0, 8, 8, 8, 8⟩

/-- Constants like KA but with the location table at offset 4 of the
instruction-sequence body. -/
def KB : Consts := ⟨16, 30, 3, 16, 8, 16, 8, 4, 0, 8, 8, 8, 8⟩

/-- Memory for the id-collision scenario: the frame at cfp = 100 has a
nonzero iseq whose decode finds an unusable path object (all further reads
give 0), and the frame at cfp = 108 is native (iseq read at 124 gives 0). -/
def memA : Mem := ⟨fun a => if a = 116 then 1 else 0, fun _ => 0, fun _ => []⟩

/-- Walker state primed over memA: two frames (cfp 100, 108) below
base_stack 108, pseudo-random stream drawing 7 twice. -/
def ctxA : Ctx := ⟨st0, 108, 100, 0, 0, ⟨[], []⟩, [7, 7], [], [], [], [], 0⟩

/-- The state published by the id-collision scenario (its walk finishes in
one program invocation). -/
def finA : Ctx := finalize (walk_ruby_stack memA KA V0 ctxA)

/-- Walker state like ctxA but with a duplicate-free random stream and the
MAX_STACK = 2 constants, for the collision-free round-trip witness. -/
def ctxA2 : Ctx := ⟨st0, 108, 100, 0, 0, ⟨[], []⟩, [7, 9], [], [], [], [], 0⟩

/-- The state published by the collision-free scenario. -/
def finA2 : Ctx := finalize (walk_ruby_stack memA KS V0 ctxA2)

/-- Memory for the stale-scratch scenarios: the frame at cfp = 100 is an
interpreter frame whose path object (address 300, type bits = string) reads
as the one-character string x and whose label object (address 400) reads as
the one-character string m; the frame at cfp = 108 is native. -/
def memB : Mem :=
  ⟨fun a =>
      if a = 116 then 2 else if a = 10 then 200 else
      if a = 204 then 300 else if a = 300 then 5 else
      if a = 208 then 400 else 0,
    fun _ => 0,
    fun a => if a = 308 then [120] else if a = 408 then [109] else []⟩

/-- Memory like memB except that the frame at cfp = 108 is an interpreter
frame (iseq read at 124 gives 3) whose path object (address 600) has type
bits 1: neither string nor array. -/
def memC : Mem :=
  ⟨fun a =>
      if a = 116 then 2 else if a = 10 then 200 else
      if a = 204 then 300 else if a = 300 then 5 else
      if a = 208 then 400 else
      if a = 124 then 3 else if a = 11 then 500 else
      if a = 504 then 600 else if a = 600 then 1 else 0,
    fun _ => 0,
    fun a => if a = 308 then [120] else if a = 408 then [109] else []⟩

/-- Walker state primed over memB / memC: two frames below base_stack 108. -/
def ctxB : Ctx := ⟨st0, 108, 100, 0, 0, ⟨[], []⟩, [7, 9], [], [], [], [], 0⟩

/-- The state published by the native-after-interpreter scenario. -/
def finB : Ctx := finalize (walk_ruby_stack memB KB V0 ctxB)

/-- The state published by the unknown-path-type-after-interpreter
scenario. -/
def finC : Ctx := finalize (walk_ruby_stack memC KB V0 ctxB)

/-- Walker state whose first loop iteration already sees cfp = 100 past
base_stack = 50. -/
def ctxW : Ctx := ⟨st0, 50, 100, 0, 0, ⟨[], []⟩, [], [], [], [], [], 0⟩

/-- The state published by the ctxW run over all-zero memory. -/
def finW : Ctx := finalize (walk_ruby_stack mem0 KA V0 ctxW)

/-- Stack record for the deep-stack scenario: expected size 4. -/
def stT : RubyStack := ⟨0, 42, 0, 0, [], 4, StackStatus.complete, []⟩

/-- Walker state for the deep-stack scenario: cfp read 100, base_stack 132,
control frames of 8 bytes, so 4 frames are expected but MAX_STACK is 2. -/
def ctxT : Ctx := ⟨stT, 132, 108, 0, 0, ⟨[], []⟩, [7], [], [], [], [], 0⟩

/-- The state published by the deep-stack scenario (all frames native). -/
def finT : Ctx := finalize (walk_ruby_stack mem0 KS V0 ctxT)

/-- Registered process record: thread global at 1000, version 0, start
time not yet recorded. -/
def pdE : ProcessData := ⟨1000, 0, 0⟩

/-- Registered process record with recorded start time 5. -/
def pdE2 : ProcessData := ⟨1000, 0, 5⟩

/-- Process registry mapping pid 42 to pdE. -/
def tableE : Nat → Option ProcessData := fun p => if p = 42 then some pdE else none

/-- Process registry mapping pid 42 to pdE2. -/
def tableE2 : Nat → Option ProcessData := fun p => if p = 42 then some pdE2 else none

/-- A sampled event on pid 42 with task start time 6. -/
def evE : EventCtx := ⟨42, true, 6, 111, 2, [99], 77⟩

/-- Memory for the event scenarios: address 0 reads as 2, everything else
as 0, so the pointer chase yields vm = vm_size = cfp = 2, base_stack = 2 and
a primed cfp of 10, making the walk finish on its first iteration. -/
def memE : Mem := ⟨fun a => if a = 0 then 2 else 0, fun _ => 0, fun _ => []⟩

/-- The event-level run of the backfill scenario. -/
def outE : List RubyStack :=
  sampleEvent memE KA tableE offs0 true EventType.unknown evE ⟨[], []⟩ []

/-- The entry-program result of the backfill scenario. -/
def resE : OnEventResult :=
  on_event memE KA tableE offs0 true EventType.unknown evE ⟨[], []⟩ []

/-- The entry-program result of the PID-reuse mismatch scenario. -/
def resE2 : OnEventResult :=
  on_event memE KA tableE2 offs0 true EventType.unknown evE ⟨[], []⟩ []

/-- A walker state sitting exactly at base_stack (cfp = base_stack = 108),
whose frame reads over memA are native (iseq read at 124 gives 0). -/
def ctxN : Ctx := ⟨st0, 108, 108, 1, 0, ⟨[], []⟩, [], [], [], [], [], 0⟩

/-- The frame record interned for the native frame of the memB scenario:
the sentinel string over the first 14 method-name bytes, and the path left
behind by the previously decoded interpreter frame. -/
def frameNatB : RubyFrame :=
  ⟨NATIVE_METHOD_NAME ++ [0, 0, 0], [120, 0, 0, 0, 0, 0, 0, 0], 0⟩

/-- The frame record decoded for the interpreter frame of the memB / memC
scenarios: method name m, path x. -/
def frameRubyB : RubyFrame :=
  ⟨[109, 0, 0, 0, 0, 0, 0, 0, 0, 0, 0, 0, 0, 0, 0, 0],
   [120, 0, 0, 0, 0, 0, 0, 0], 0⟩

/-- The frame record interned for the native frame of the memA scenario. -/
def frameNatA : RubyFrame :=
  ⟨NATIVE_METHOD_NAME ++ [0, 0, 0], [0, 0, 0, 0], 0⟩

/-- The SampleState primed by the backfill scenario's entry program. -/
def primedE : Ctx :=
  prime_sample memE KA V0 EventType.unknown evE 1000 0 ⟨[], []⟩ []

/-- The state published by the backfill scenario's walk. -/
def finE : Ctx := finalize (walk_ruby_stack memE KA V0 primedE)

theorem runFrames_ind (m : Mem) (k : Consts) (vo : RubyVersionOffsets)
    (P : Ctx → Prop)
    (hstep : ∀ cf c, P c → P (frameStep m k vo cf c).1) :
    ∀ (n : Nat) (cf : RubyFrame) (c : Ctx), P c → P (runFrames m k vo n cf c) := by
  intro n
  induction n with
  | zero => intro cf c hc; exact hc
  | succ n ih =>
    intro cf c hc
    unfold runFrames
    rcases h : frameStep m k vo cf c with ⟨c1, o⟩
    have hc1 : P c1 := by
      have := hstep cf c hc
      rw [h] at this; exact this
    cases o with
    | none => exact hc1
    | some cf1 => exact ih cf1 c1 hc1

theorem walk_ruby_stack_ind (m : Mem) (k : Consts) (vo : RubyVersionOffsets)
    (P : Ctx → Prop)
    (hstep : ∀ cf c, P c → P (frameStep m k vo cf c).1)
    (hcount : ∀ c, P c →
      P { c with ruby_stack_program_count := c.ruby_stack_program_count + 1 })
    (c : Ctx) (hc : P c) : P (walk_ruby_stack m k vo c) :=
  runFrames_ind m k vo P hstep k.max_stacks_per_program (zeroFrame k) _
    (hcount c hc)

theorem chain_ind_fuel (m : Mem) (k : Consts)
    (offsets : Nat → Option RubyVersionOffsets) (P : Ctx → Prop)
    (hinv : ∀ vo c, offsets c.rb_version = some vo →
      P c → P (walk_ruby_stack m k vo c))
    (hfin : ∀ c, P c → P (finalize c)) :
    ∀ (n : Nat) (c fin : Ctx),
      k.bpf_programs_count - c.ruby_stack_program_count ≤ n →
      walk_ruby_stack_chain m k offsets c = some fin → P c → P fin := by
  intro n
  induction n with
  | zero =>
    intro c fin hn hchain hc
    rw [walk_ruby_stack_chain] at hchain
    rcases ho : offsets c.rb_version with _ | vo
    · rw [ho] at hchain; exact absurd hchain (by simp)
    · rw [ho] at hchain
      simp only at hchain
      split at hchain
      · rename_i hguard
        exfalso
        have := walk_ruby_stack_program_count m k vo c
        omega
      · cases hchain
        exact hfin _ (hinv vo c ho hc)
  | succ n ih =>
    intro c fin hn hchain hc
    rw [walk_ruby_stack_chain] at hchain
    rcases ho : offsets c.rb_version with _ | vo
    · rw [ho] at hchain; exact absurd hchain (by simp)
    · rw [ho] at hchain
      simp only at hchain
      split at hchain
      · rename_i hguard
        have hcnt := walk_ruby_stack_program_count m k vo c
        exact ih (walk_ruby_stack m k vo c) fin (by omega) hchain
          (hinv vo c ho hc)
      · cases hchain
        exact hfin _ (hinv vo c ho hc)

theorem frameStep_break (m : Mem) (k : Consts) (vo : RubyVersionOffsets)
    (cf : RubyFrame) (c : Ctx) (h : c.base_stack < c.cfp) :
    frameStep m k vo cf c =
      ({ c with prefetch_log := c.prefetch_log ++ [c.cfp] }, none) := by
  unfold frameStep
  simp [h]

theorem frameStep_go (m : Mem) (k : Consts) (vo : RubyVersionOffsets)
    (cf : RubyFrame) (c : Ctx) (h : ¬ c.base_stack < c.cfp) :
    frameStep m k vo cf c =
      (advance vo
        (appendFrame k
          (decodeCurrent m k vo cf
            { c with prefetch_log := c.prefetch_log ++ [c.cfp] }).1
          (decodeCurrent m k vo cf
            { c with prefetch_log := c.prefetch_log ++ [c.cfp] }).2),
        some (decodeCurrent m k vo cf
          { c with prefetch_log := c.prefetch_log ++ [c.cfp] }).1) := by
  unfold frameStep
  simp [h]

theorem decodeCurrent_ctx_fields (m : Mem) (k : Consts)
    (vo : RubyVersionOffsets) (cf : RubyFrame) (c : Ctx) :
    (decodeCurrent m k vo cf c).2.stack = c.stack ∧
    (decodeCurrent m k vo cf c).2.base_stack = c.base_stack ∧
    (decodeCurrent m k vo cf c).2.cfp = c.cfp ∧
    (decodeCurrent m k vo cf c).2.intern = c.intern ∧
    (decodeCurrent m k vo cf c).2.rands = c.rands ∧
    (decodeCurrent m k vo cf c).2.appends = c.appends ∧
    (decodeCurrent m k vo cf c).2.intern_log = c.intern_log ∧
    (decodeCurrent m k vo cf c).2.processed = c.processed ∧
    (decodeCurrent m k vo cf c).2.prefetch_log = c.prefetch_log ∧
    (decodeCurrent m k vo cf c).2.ruby_stack_program_count =
      c.ruby_stack_program_count ∧
    (decodeCurrent m k vo cf c).2.rb_version = c.rb_version := by
  unfold decodeCurrent
  dsimp only
  split <;> exact ⟨rfl, rfl, rfl, rfl, rfl, rfl, rfl, rfl, rfl, rfl, rfl⟩

theorem frameStep_length_le (m : Mem) (k : Consts) (vo : RubyVersionOffsets)
    (cf : RubyFrame) (c : Ctx)
    (h : c.stack.frames.length ≤ k.max_stack) :
    (frameStep m k vo cf c).1.stack.frames.length ≤ k.max_stack := by
  unfold frameStep decodeCurrent appendFrame advance
  dsimp only
  split
  · exact h
  · split <;> (dsimp only; split <;> simp_all <;> omega)

theorem frameStep_processed_le (m : Mem) (k : Consts)
    (vo : RubyVersionOffsets) (cf : RubyFrame) (c : Ctx) :
    (frameStep m k vo cf c).1.processed ≤ c.processed + 1 := by
  unfold frameStep decodeCurrent appendFrame advance
  dsimp only
  split
  · exact Nat.le_succ _
  · split <;> (dsimp only; split <;> simp_all)

theorem runFrames_processed_le (m : Mem) (k : Consts)
    (vo : RubyVersionOffsets) :
    ∀ (n : Nat) (cf : RubyFrame) (c : Ctx),
      (runFrames m k vo n cf c).processed ≤ c.processed + n := by
  intro n
  induction n with
  | zero => intro cf c; exact Nat.le_add_right _ _
  | succ n ih =>
    intro cf c
    unfold runFrames
    rcases h : frameStep m k vo cf c with ⟨c1, o⟩
    have h1 : c1.processed ≤ c.processed + 1 := by
      have := frameStep_processed_le m k vo cf c
      rw [h] at this; exact this
    cases o with
    | none => dsimp only; omega
    | some cf1 =>
      dsimp only
      have := ih cf1 c1
      omega

theorem walk_ruby_stack_processed_le (m : Mem) (k : Consts)
    (vo : RubyVersionOffsets) (c : Ctx) :
    (walk_ruby_stack m k vo c).processed ≤
      c.processed + k.max_stacks_per_program := by
  unfold walk_ruby_stack
  exact runFrames_processed_le m k vo k.max_stacks_per_program (zeroFrame k) _

theorem frameStep_preserves (m : Mem) (k : Consts) (vo : RubyVersionOffsets)
    (cf : RubyFrame) (c : Ctx) :
    (frameStep m k vo cf c).1.base_stack = c.base_stack ∧
    (frameStep m k vo cf c).1.rb_version = c.rb_version ∧
    (frameStep m k vo cf c).1.stack.expected_size = c.stack.expected_size ∧
    (frameStep m k vo cf c).1.stack.stack_status = c.stack.stack_status := by
  unfold frameStep decodeCurrent appendFrame advance
  dsimp only
  split
  · exact ⟨rfl, rfl, rfl, rfl⟩
  · split <;> split <;> exact ⟨rfl, rfl, rfl, rfl⟩

theorem finalize_fields (c : Ctx) :
    (finalize c).base_stack = c.base_stack ∧
    (finalize c).cfp = c.cfp ∧
    (finalize c).rb_version = c.rb_version ∧
    (finalize c).ruby_stack_program_count = c.ruby_stack_program_count ∧
    (finalize c).stack.expected_size = c.stack.expected_size ∧
    (finalize c).stack.frames = c.stack.frames ∧
    (finalize c).stack.stack_status =
      (if c.base_stack < c.cfp then StackStatus.complete
       else StackStatus.incomplete) :=
  ⟨rfl, rfl, rfl, rfl, rfl, rfl, rfl⟩

theorem chain_final_fuel (m : Mem) (k : Consts)
    (offsets : Nat → Option RubyVersionOffsets) :
    ∀ (n : Nat) (c fin : Ctx),
      k.bpf_programs_count - c.ruby_stack_program_count ≤ n →
      walk_ruby_stack_chain m k offsets c = some fin →
      (fin.stack.stack_status =
        (if fin.base_stack < fin.cfp then StackStatus.complete
         else StackStatus.incomplete)) ∧
      (fin.cfp ≤ fin.base_stack →
        k.bpf_programs_count ≤ fin.ruby_stack_program_count) ∧
      (fin.ruby_stack_program_count ≤ k.bpf_programs_count ∨
        fin.ruby_stack_program_count = c.ruby_stack_program_count + 1) := by
  intro n
  induction n with
  | zero =>
    intro c fin hn hchain
    rw [walk_ruby_stack_chain] at hchain
    rcases ho : offsets c.rb_version with _ | vo
    · rw [ho] at hchain; exact absurd hchain (by simp)
    · rw [ho] at hchain
      simp only at hchain
      split at hchain
      · rename_i hguard
        exfalso
        have := walk_ruby_stack_program_count m k vo c
        omega
      · rename_i hguard
        cases hchain
        have hcnt := walk_ruby_stack_program_count m k vo c
        have e1 : (finalize (walk_ruby_stack m k vo c)).cfp =
            (walk_ruby_stack m k vo c).cfp := rfl
        have e2 : (finalize (walk_ruby_stack m k vo c)).base_stack =
            (walk_ruby_stack m k vo c).base_stack := rfl
        have e3 : (finalize (walk_ruby_stack m k vo c)).ruby_stack_program_count =
            (walk_ruby_stack m k vo c).ruby_stack_program_count := rfl
        refine ⟨rfl, ?_, Or.inr (by omega)⟩
        intro hle
        by_contra hlt
        exact hguard ⟨by omega, by omega⟩
  | succ n ih =>
    intro c fin hn hchain
    rw [walk_ruby_stack_chain] at hchain
    rcases ho : offsets c.rb_version with _ | vo
    · rw [ho] at hchain; exact absurd hchain (by simp)
    · rw [ho] at hchain
      simp only at hchain
      split at hchain
      · rename_i hguard
        have hcnt := walk_ruby_stack_program_count m k vo c
        have := ih (walk_ruby_stack m k vo c) fin (by omega) hchain
        refine ⟨this.1, this.2.1, ?_⟩
        rcases this.2.2 with h1 | h2
        · exact Or.inl h1
        · exact Or.inl (by omega)
      · rename_i hguard
        cases hchain
        have hcnt := walk_ruby_stack_program_count m k vo c
        have e1 : (finalize (walk_ruby_stack m k vo c)).cfp =
            (walk_ruby_stack m k vo c).cfp := rfl
        have e2 : (finalize (walk_ruby_stack m k vo c)).base_stack =
            (walk_ruby_stack m k vo c).base_stack := rfl
        have e3 : (finalize (walk_ruby_stack m k vo c)).ruby_stack_program_count =
            (walk_ruby_stack m k vo c).ruby_stack_program_count := rfl
        refine ⟨rfl, ?_, Or.inr (by omega)⟩
        intro hle
        by_contra hlt
        exact hguard ⟨by omega, by omega⟩

theorem chain_final (m : Mem) (k : Consts)
    (offsets : Nat → Option RubyVersionOffsets) (c fin : Ctx)
    (hchain : walk_ruby_stack_chain m k offsets c = some fin) :
    (fin.stack.stack_status =
      (if fin.base_stack < fin.cfp then StackStatus.complete
       else StackStatus.incomplete)) ∧
    (fin.cfp ≤ fin.base_stack →
      k.bpf_programs_count ≤ fin.ruby_stack_program_count) ∧
    (fin.ruby_stack_program_count ≤ k.bpf_programs_count ∨
      fin.ruby_stack_program_count = c.ruby_stack_program_count + 1) :=
  chain_final_fuel m k offsets
    (k.bpf_programs_count - c.ruby_stack_program_count) c fin le_rfl hchain

theorem chain_ind (m : Mem) (k : Consts)
    (offsets : Nat → Option RubyVersionOffsets) (P : Ctx → Prop)
    (hinv : ∀ vo c, offsets c.rb_version = some vo →
      P c → P (walk_ruby_stack m k vo c))
    (hfin : ∀ c, P c → P (finalize c))
    (c fin : Ctx) (hchain : walk_ruby_stack_chain m k offsets c = some fin)
    (hc : P c) : P fin :=
  chain_ind_fuel m k offsets P hinv hfin
    (k.bpf_programs_count - c.ruby_stack_program_count) c fin le_rfl hchain hc


theorem chain_stop (m : Mem) (k : Consts)
    (offsets : Nat → Option RubyVersionOffsets) (c : Ctx)
    (vo : RubyVersionOffsets) (ho : offsets c.rb_version = some vo)
    (hstop : ¬ ((walk_ruby_stack m k vo c).cfp ≤
        (walk_ruby_stack m k vo c).base_stack ∧
      (walk_ruby_stack m k vo c).ruby_stack_program_count <
        k.bpf_programs_count)) :
    walk_ruby_stack_chain m k offsets c =
      some (finalize (walk_ruby_stack m k vo c)) := by
  rw [walk_ruby_stack_chain, ho]
  simp only
  rw [dif_neg hstop]

theorem chain_continue (m : Mem) (k : Consts)
    (offsets : Nat → Option RubyVersionOffsets) (c : Ctx)
    (vo : RubyVersionOffsets) (ho : offsets c.rb_version = some vo)
    (hgo : (walk_ruby_stack m k vo c).cfp ≤
        (walk_ruby_stack m k vo c).base_stack ∧
      (walk_ruby_stack m k vo c).ruby_stack_program_count <
        k.bpf_programs_count) :
    walk_ruby_stack_chain m k offsets c =
      walk_ruby_stack_chain m k offsets (walk_ruby_stack m k vo c) := by
  rw [walk_ruby_stack_chain, ho]
  simp only
  rw [dif_pos hgo]

/-- C1: a published StackRecord has status COMPLETE exactly when the walker
saw cfp pass base_stack (the status test of line 256 of the source is the
final observation of that comparison and the loop of lines 218-245 freezes
cfp as soon as the comparison first holds), and the only other outcome,
INCOMPLETE, occurs exactly when cfp has not passed base_stack at the point
where all BPF_PROGRAMS_COUNT program invocations of the tail-call budget
have been used. -/
theorem claim_C1 (m : Mem) (k : Consts)
    (offsets : Nat → Option RubyVersionOffsets) (c0 fin : Ctx)
    (hcount : c0.ruby_stack_program_count = 0)
    (hN : 1 ≤ k.bpf_programs_count)
    (hchain : walk_ruby_stack_chain m k offsets c0 = some fin) :
    (fin.stack.stack_status = StackStatus.complete ↔
      fin.base_stack < fin.cfp) ∧
    (fin.stack.stack_status = StackStatus.incomplete ↔
      (fin.cfp ≤ fin.base_stack ∧
        fin.ruby_stack_program_count = k.bpf_programs_count)) := by
  obtain ⟨hs, himp, hor⟩ := chain_final m k offsets c0 fin hchain
  have hcle : fin.ruby_stack_program_count ≤ k.bpf_programs_count := by
    rcases hor with h | h
    · exact h
    · omega
  by_cases hlt : fin.base_stack < fin.cfp
  · rw [if_pos hlt] at hs
    refine ⟨by simp [hs, hlt], ?_, ?_⟩
    · intro hinc
      rw [hinc] at hs
      exact absurd hs (by simp)
    · intro hsb
      omega
  · rw [if_neg hlt] at hs
    have hle : fin.cfp ≤ fin.base_stack := Nat.le_of_not_lt hlt
    have hge := himp hle
    refine ⟨⟨?_, ?_⟩, ?_, ?_⟩
    · intro hcmp
      rw [hcmp] at hs
      exact absurd hs (by simp)
    · intro h
      exact absurd h hlt
    · intro _
      exact ⟨hle, by omega⟩
    · intro _
      exact hs

theorem claim_C1_witness :
    (finW.stack.stack_status = StackStatus.complete ↔
      finW.base_stack < finW.cfp) ∧
    (finW.stack.stack_status = StackStatus.incomplete ↔
      (finW.cfp ≤ finW.base_stack ∧
        finW.ruby_stack_program_count = KA.bpf_programs_count)) :=
  claim_C1 mem0 KA offs0 ctxW finW rfl (by decide)
    (chain_stop mem0 KA offs0 ctxW V0 rfl (by decide))

/-- C6: for a sample primed by the entry program (size 0, program count 0),
the published record holds at most MAX_STACK frame ids, the number of
program invocations spent on the sample is at most BPF_PROGRAMS_COUNT, and
any single invocation of walk_ruby_stack passes the termination check (and
so processes a control frame) at most MAX_STACKS_PER_PROGRAM times. -/
theorem claim_C6 (m : Mem) (k : Consts)
    (offsets : Nat → Option RubyVersionOffsets) (c0 fin : Ctx)
    (hframes : c0.stack.frames = [])
    (hcount : c0.ruby_stack_program_count = 0)
    (hN : 1 ≤ k.bpf_programs_count)
    (hchain : walk_ruby_stack_chain m k offsets c0 = some fin) :
    fin.stack.frames.length ≤ k.max_stack ∧
    fin.ruby_stack_program_count ≤ k.bpf_programs_count ∧
    (∀ (vo1 : RubyVersionOffsets) (c : Ctx),
      (walk_ruby_stack m k vo1 c).processed ≤
        c.processed + k.max_stacks_per_program) := by
  refine ⟨?_, ?_, ?_⟩
  · refine chain_ind m k offsets
      (fun c => c.stack.frames.length ≤ k.max_stack) ?_ ?_ c0 fin hchain ?_
    · intro vo c _ hc
      exact walk_ruby_stack_ind m k vo
        (fun c => c.stack.frames.length ≤ k.max_stack)
        (fun cf c hc => frameStep_length_le m k vo cf c hc)
        (fun c hc => hc) c hc
    · intro c hc
      exact hc
    · show c0.stack.frames.length ≤ k.max_stack
      rw [hframes]
      exact Nat.zero_le _
  · obtain ⟨_, _, hor⟩ := chain_final m k offsets c0 fin hchain
    rcases hor with h | h
    · exact h
    · omega
  · intro vo1 c
    exact walk_ruby_stack_processed_le m k vo1 c

theorem claim_C6_witness :
    finW.stack.frames.length ≤ KA.max_stack ∧
    finW.ruby_stack_program_count ≤ KA.bpf_programs_count ∧
    (∀ (vo1 : RubyVersionOffsets) (c : Ctx),
      (walk_ruby_stack mem0 KA vo1 c).processed ≤
        c.processed + KA.max_stacks_per_program) :=
  claim_C6 mem0 KA offs0 ctxW finW rfl rfl (by decide)
    (chain_stop mem0 KA offs0 ctxW V0 rfl (by decide))

theorem advance_fields (vo : RubyVersionOffsets) (c : Ctx) :
    (advance vo c).stack = c.stack ∧
    (advance vo c).base_stack = c.base_stack ∧
    (advance vo c).ruby_stack_program_count = c.ruby_stack_program_count ∧
    (advance vo c).rb_version = c.rb_version ∧
    (advance vo c).intern = c.intern ∧
    (advance vo c).rands = c.rands ∧
    (advance vo c).appends = c.appends ∧
    (advance vo c).decode_log = c.decode_log ∧
    (advance vo c).prefetch_log = c.prefetch_log ∧
    (advance vo c).intern_log = c.intern_log ∧
    (advance vo c).cfp = u64 (c.cfp + vo.control_frame_t_sizeof) ∧
    (advance vo c).processed = c.processed + 1 :=
  ⟨rfl, rfl, rfl, rfl, rfl, rfl, rfl, rfl, rfl, rfl, rfl, rfl⟩

theorem appendFrame_fields (k : Consts) (cf : RubyFrame) (c : Ctx) :
    (appendFrame k cf c).base_stack = c.base_stack ∧
    (appendFrame k cf c).cfp = c.cfp ∧
    (appendFrame k cf c).ruby_stack_program_count =
      c.ruby_stack_program_count ∧
    (appendFrame k cf c).rb_version = c.rb_version ∧
    (appendFrame k cf c).decode_log = c.decode_log ∧
    (appendFrame k cf c).prefetch_log = c.prefetch_log ∧
    (appendFrame k cf c).processed = c.processed ∧
    (appendFrame k cf c).stack.expected_size = c.stack.expected_size ∧
    (appendFrame k cf c).stack.stack_status = c.stack.stack_status := by
  unfold appendFrame
  dsimp only
  split <;> exact ⟨rfl, rfl, rfl, rfl, rfl, rfl, rfl, rfl, rfl⟩

theorem decodeCurrent_native (m : Mem) (k : Consts) (vo : RubyVersionOffsets)
    (cf : RubyFrame) (c : Ctx)
    (h : m.r8 (u64 (c.cfp + k.iseq_offset)) = 0) :
    decodeCurrent m k vo cf c =
      ({ cf with
          method_name :=
            strWrite cf.method_name (NATIVE_METHOD_NAME.length + 1)
              NATIVE_METHOD_NAME },
        c) := by
  unfold decodeCurrent
  simp [h]

theorem decodeCurrent_iseq (m : Mem) (k : Consts) (vo : RubyVersionOffsets)
    (cf : RubyFrame) (c : Ctx)
    (h : m.r8 (u64 (c.cfp + k.iseq_offset)) ≠ 0) :
    decodeCurrent m k vo cf c =
      (read_frame m k vo (m.r8 (u64 (m.r8 (u64 (c.cfp + 0)))))
        (m.r8 (u64 (m.r8 (u64 (c.cfp + k.iseq_offset)) + k.body_offset))) cf,
        { c with decode_log := c.decode_log ++ [c.cfp] }) := by
  unfold decodeCurrent
  simp [h]

theorem decodeCurrent_decode_log (m : Mem) (k : Consts)
    (vo : RubyVersionOffsets) (cf : RubyFrame) (c : Ctx) :
    (decodeCurrent m k vo cf c).2.decode_log = c.decode_log ∨
    (decodeCurrent m k vo cf c).2.decode_log = c.decode_log ++ [c.cfp] := by
  unfold decodeCurrent
  dsimp only
  split
  · exact Or.inl rfl
  · exact Or.inr rfl

theorem frameStep_decode_inv (m : Mem) (k : Consts) (vo : RubyVersionOffsets)
    (cf : RubyFrame) (c : Ctx) (b : Nat)
    (hbase : c.base_stack = b) (hlog : ∀ a ∈ c.decode_log, a ≤ b) :
    (frameStep m k vo cf c).1.base_stack = b ∧
    ∀ a ∈ (frameStep m k vo cf c).1.decode_log, a ≤ b := by
  by_cases h : c.base_stack < c.cfp
  · rw [frameStep_break m k vo cf c h]
    exact ⟨hbase, hlog⟩
  · rw [frameStep_go m k vo cf c h]
    have hcfp : c.cfp ≤ b := by omega
    dsimp only
    constructor
    · rw [(advance_fields _ _).2.1, (appendFrame_fields _ _ _).1,
        (decodeCurrent_ctx_fields _ _ _ _ _).2.1]
      exact hbase
    · intro a ha
      rw [(advance_fields _ _).2.2.2.2.2.2.2.1,
        (appendFrame_fields _ _ _).2.2.2.2.1] at ha
      rcases decodeCurrent_decode_log m k vo cf
          { c with prefetch_log := c.prefetch_log ++ [c.cfp] } with hd | hd
      · rw [hd] at ha
        exact hlog a ha
      · rw [hd] at ha
        rcases List.mem_append.1 ha with h1 | h2
        · exact hlog a h1
        · rcases List.mem_singleton.1 h2 with rfl
          exact hcfp

/-- C9 (amended): the frame decoder is never invoked on a control frame
whose cfp exceeds base_stack.  During any publishing chain every cfp in
the decoder-invocation log is at most base_stack, and at a frame whose
cfp exceeds base_stack the loop iteration still issues the raw iseq/pc
reads (recorded in prefetch_log) but then breaks: the decoder does not
run and nothing is appended, so such frames are discarded by the
termination check, not by the size cap. -/
theorem claim_C9 (m : Mem) (k : Consts)
    (offsets : Nat → Option RubyVersionOffsets) (c0 fin : Ctx)
    (hlog : c0.decode_log = [])
    (hchain : walk_ruby_stack_chain m k offsets c0 = some fin) :
    (∀ a ∈ fin.decode_log, a ≤ fin.base_stack) ∧
    (∀ (vo : RubyVersionOffsets) (cf : RubyFrame) (c : Ctx),
      c.base_stack < c.cfp →
      frameStep m k vo cf c =
        ({ c with prefetch_log := c.prefetch_log ++ [c.cfp] }, none)) := by
  constructor
  · have hP : (fun c => c.base_stack = c0.base_stack ∧
        ∀ a ∈ c.decode_log, a ≤ c0.base_stack) fin := by
      refine chain_ind m k offsets
        (fun c => c.base_stack = c0.base_stack ∧
          ∀ a ∈ c.decode_log, a ≤ c0.base_stack) ?_ ?_ c0 fin hchain ?_
      · intro vo c _ hc
        refine walk_ruby_stack_ind m k vo
          (fun c => c.base_stack = c0.base_stack ∧
            ∀ a ∈ c.decode_log, a ≤ c0.base_stack) ?_ ?_ c hc
        · intro cf c hc
          exact frameStep_decode_inv m k vo cf c c0.base_stack hc.1 hc.2
        · intro c hc
          exact hc
      · intro c hc
        exact hc
      · exact ⟨rfl, by rw [hlog]; intro a ha; cases ha⟩
    intro a ha
    rw [hP.1]
    exact hP.2 a ha
  · intro vo cf c hbeyond
    exact frameStep_break m k vo cf c hbeyond

theorem claim_C9_witness :
    (∀ a ∈ finW.decode_log, a ≤ finW.base_stack) ∧
    (∀ (vo : RubyVersionOffsets) (cf : RubyFrame) (c : Ctx),
      c.base_stack < c.cfp →
      frameStep mem0 KA vo cf c =
        ({ c with prefetch_log := c.prefetch_log ++ [c.cfp] }, none)) :=
  claim_C9 mem0 KA offs0 ctxW finW rfl
    (chain_stop mem0 KA offs0 ctxW V0 rfl (by decide))

/-- C9 counterexample: from the reachable state ctxW whose first control
frame already has cfp = 100 past base_stack = 50, the published chain run
shows the raw reads of that frame were issued (prefetch_log = the one
cfp) while the decoder-invocation and interner logs and the frame array
stay empty: the beyond-top frame is not decoded and no decoded result is
discarded by the size cap, contradicting the claim. -/
theorem claim_C9_counterexample :
    ctxW.base_stack < ctxW.cfp ∧
    walk_ruby_stack_chain mem0 KA offs0 ctxW = some finW ∧
    finW.prefetch_log = [100] ∧
    finW.decode_log = [] ∧
    finW.intern_log = [] ∧
    finW.stack.frames = [] :=
  ⟨by decide, chain_stop mem0 KA offs0 ctxW V0 rfl (by decide),
    by decide, by decide, by decide, by decide⟩

/-- C3 (amended): for a walked frame whose iseq pointer reads as NULL, the
walker overwrites only the first sizeof(NATIVE_METHOD_NAME) = 14 bytes of
the scratch record's method_name with the sentinel and NUL and does not
invoke the decoder; path, lineno and the method-name bytes past the
sentinel keep whatever the previously decoded frame of the same program
invocation left in the scratch record, and they are all zero exactly when
the scratch record is still the per-invocation zero record (in particular
when the native frame is the first one processed by the invocation). -/
theorem claim_C3 (m : Mem) (k : Consts) (vo : RubyVersionOffsets)
    (cf : RubyFrame) (c : Ctx)
    (hnat : m.r8 (u64 (c.cfp + k.iseq_offset)) = 0)
    (hin : ¬ c.base_stack < c.cfp) :
    (frameStep m k vo cf c).2 =
      some { cf with
        method_name :=
          strWrite cf.method_name (NATIVE_METHOD_NAME.length + 1)
            NATIVE_METHOD_NAME } ∧
    (frameStep m k vo cf c).1.decode_log = c.decode_log ∧
    (cf = zeroFrame k →
      (frameStep m k vo cf c).2 =
        some ⟨NATIVE_METHOD_NAME ++ [0] ++
            List.replicate (k.method_name_len - 14) 0,
          List.replicate k.path_len 0, 0⟩) := by
  rw [frameStep_go m k vo cf c hin]
  rw [decodeCurrent_native m k vo cf
    { c with prefetch_log := c.prefetch_log ++ [c.cfp] } hnat]
  refine ⟨rfl, ?_, ?_⟩
  · dsimp only
    rw [(advance_fields _ _).2.2.2.2.2.2.2.1,
      (appendFrame_fields _ _ _).2.2.2.2.1]
  · intro hcf
    subst hcf
    dsimp only
    simp [strWrite, zeroFrame, NATIVE_METHOD_NAME]

theorem claim_C3_witness :
    (frameStep memA KA V0 (zeroFrame KA) ctxN).2 =
      some { zeroFrame KA with
        method_name :=
          strWrite (zeroFrame KA).method_name (NATIVE_METHOD_NAME.length + 1)
            NATIVE_METHOD_NAME } ∧
    (frameStep memA KA V0 (zeroFrame KA) ctxN).1.decode_log =
      ctxN.decode_log ∧
    (zeroFrame KA = zeroFrame KA →
      (frameStep memA KA V0 (zeroFrame KA) ctxN).2 =
        some ⟨NATIVE_METHOD_NAME ++ [0] ++
            List.replicate (KA.method_name_len - 14) 0,
          List.replicate KA.path_len 0, 0⟩) :=
  claim_C3 memA KA V0 (zeroFrame KA) ctxN (by decide) (by decide)

/-- C3 counterexample: in the memB scenario the frame at cfp = 108 is
native (its iseq pointer reads as 0) and follows a decoded interpreter
frame in the same walker invocation; the record interned and appended for
it (position 1 of the published sample, id 9) carries the previous frame's
path, which is not the empty (all-zero) path the claim requires. -/
theorem claim_C3_counterexample :
    Mem.r8 memB (u64 (108 + KB.iseq_offset)) = 0 ∧
    walk_ruby_stack_chain memB KB offs0 ctxB = some finB ∧
    finB.stack.frames = [7, 9] ∧
    finB.appends[1]? = some (9, frameNatB) ∧
    frameNatB.path ≠ List.replicate KB.path_len 0 ∧
    frameNatB.path = frameRubyB.path :=
  ⟨by decide, chain_stop memB KB offs0 ctxB V0 rfl (by decide),
    by decide, by decide, by decide, by decide⟩

/-- C4 (amended): when the path object's type bits indicate neither a
string nor an array, read_frame returns without touching any field of the
frame record, and the caller zeroes the scratch record once per program
invocation (not before every decode), so the record subsequently interned
for that control frame is whatever the scratch record already held: the
zero record only if no earlier frame of the same invocation populated
it. -/
theorem claim_C4 (m : Mem) (k : Consts) (vo : RubyVersionOffsets)
    (pc body : Nat) (cf : RubyFrame)
    (h1 : (m.r8 (u64 (m.r8
        (u64 (body + k.ruby_location_offset + k.path_offset))))) &&&
        RUBY_T_MASK ≠ RUBY_T_STRING)
    (h2 : (m.r8 (u64 (m.r8
        (u64 (body + k.ruby_location_offset + k.path_offset))))) &&&
        RUBY_T_MASK ≠ RUBY_T_ARRAY) :
    read_frame m k vo pc body cf = cf ∧
    (∀ c : Ctx, walk_ruby_stack m k vo c =
      runFrames m k vo k.max_stacks_per_program (zeroFrame k)
        { c with
            ruby_stack_program_count := c.ruby_stack_program_count + 1 }) := by
  constructor
  · unfold read_frame
    simp only [if_neg h1, if_neg h2]
  · intro c
    rfl

theorem claim_C4_witness :
    read_frame memC KB V0 0 500 frameRubyB = frameRubyB ∧
    (∀ c : Ctx, walk_ruby_stack memC KB V0 c =
      runFrames memC KB V0 KB.max_stacks_per_program (zeroFrame KB)
        { c with
            ruby_stack_program_count := c.ruby_stack_program_count + 1 }) :=
  claim_C4 memC KB V0 0 500 frameRubyB (by decide) (by decide)

/-- C4 counterexample: in the memC scenario the frame at cfp = 108 is
decoded (decode_log ends with 108) and its path object has type bits 1,
neither string nor array; the record interned for it (position 1) is the
previous frame's fully populated record, not a zero-initialised one. -/
theorem claim_C4_counterexample :
    (Mem.r8 memC (u64 (Mem.r8 memC
        (u64 (500 + KB.ruby_location_offset + KB.path_offset))))) &&&
        RUBY_T_MASK ≠ RUBY_T_STRING ∧
    (Mem.r8 memC (u64 (Mem.r8 memC
        (u64 (500 + KB.ruby_location_offset + KB.path_offset))))) &&&
        RUBY_T_MASK ≠ RUBY_T_ARRAY ∧
    Mem.r8 memC (u64 (Mem.r8 memC (u64 (108 + KB.iseq_offset)) +
      KB.body_offset)) = 500 ∧
    walk_ruby_stack_chain memC KB offs0 ctxB = some finC ∧
    finC.decode_log = [100, 108] ∧
    finC.appends[1]? = some (7, frameRubyB) ∧
    frameRubyB ≠ zeroFrame KB :=
  ⟨by decide, by decide, by decide,
    chain_stop memC KB offs0 ctxB V0 rfl (by decide),
    by decide, by decide, by decide⟩

theorem sampleEvent_of_primed_none (m : Mem) (k : Consts)
    (table : Nat → Option ProcessData)
    (offsets : Nat → Option RubyVersionOffsets)
    (enable : Bool) (et : EventType) (ev : EventCtx)
    (i0 : InternState) (r0 : List Nat)
    (h : (on_event m k table offsets enable et ev i0 r0).primed = none) :
    sampleEvent m k table offsets enable et ev i0 r0 = [] := by
  unfold sampleEvent
  rw [h]

theorem sampleEvent_of_primed_chain (m : Mem) (k : Consts)
    (table : Nat → Option ProcessData)
    (offsets : Nat → Option RubyVersionOffsets)
    (enable : Bool) (et : EventType) (ev : EventCtx)
    (i0 : InternState) (r0 : List Nat) (c fin : Ctx)
    (hp : (on_event m k table offsets enable et ev i0 r0).primed = some c)
    (hc : walk_ruby_stack_chain m k offsets c = some fin) :
    sampleEvent m k table offsets enable et ev i0 r0 = [fin.stack] := by
  unfold sampleEvent
  rw [hp]
  simp only
  rw [hc]

theorem on_event_primed_none_table (m : Mem) (k : Consts)
    (table : Nat → Option ProcessData)
    (offsets : Nat → Option RubyVersionOffsets)
    (enable : Bool) (et : EventType) (ev : EventCtx)
    (i0 : InternState) (r0 : List Nat)
    (h : table ev.pid = none) :
    (on_event m k table offsets enable et ev i0 r0).primed = none := by
  unfold on_event
  rw [h]

theorem on_event_primed_none_frame (m : Mem) (k : Consts)
    (table : Nat → Option ProcessData)
    (offsets : Nat → Option RubyVersionOffsets)
    (enable : Bool) (et : EventType) (ev : EventCtx)
    (i0 : InternState) (r0 : List Nat) (pd : ProcessData)
    (hpd : table ev.pid = some pd) (hf : pd.rb_frame_addr = 0) :
    (on_event m k table offsets enable et ev i0 r0).primed = none := by
  unfold on_event
  rw [hpd]
  simp [hf]

theorem on_event_primed_none_task (m : Mem) (k : Consts)
    (table : Nat → Option ProcessData)
    (offsets : Nat → Option RubyVersionOffsets)
    (enable : Bool) (et : EventType) (ev : EventCtx)
    (i0 : InternState) (r0 : List Nat) (pd : ProcessData)
    (hpd : table ev.pid = some pd) (ht : ev.task_ok = false) :
    (on_event m k table offsets enable et ev i0 r0).primed = none := by
  unfold on_event
  rw [hpd]
  by_cases hf : pd.rb_frame_addr = 0 <;> simp [hf, ht]

theorem on_event_primed_none_race (m : Mem) (k : Consts)
    (table : Nat → Option ProcessData)
    (offsets : Nat → Option RubyVersionOffsets)
    (enable : Bool) (et : EventType) (ev : EventCtx)
    (i0 : InternState) (r0 : List Nat) (pd : ProcessData)
    (hpd : table ev.pid = some pd)
    (hrc : pid_race_check enable pd ev.task_start_time = none) :
    (on_event m k table offsets enable et ev i0 r0).primed = none := by
  unfold on_event
  rw [hpd]
  by_cases hf : pd.rb_frame_addr = 0 <;>
    by_cases ht : ev.task_ok = false <;> simp [hf, ht, hrc]

theorem on_event_primed_none_offsets (m : Mem) (k : Consts)
    (table : Nat → Option ProcessData)
    (offsets : Nat → Option RubyVersionOffsets)
    (enable : Bool) (et : EventType) (ev : EventCtx)
    (i0 : InternState) (r0 : List Nat) (pd pd1 : ProcessData)
    (hpd : table ev.pid = some pd)
    (hrc : pid_race_check enable pd ev.task_start_time = some pd1)
    (hvo : offsets pd1.rb_version = none) :
    (on_event m k table offsets enable et ev i0 r0).primed = none := by
  unfold on_event
  rw [hpd]
  by_cases hf : pd.rb_frame_addr = 0 <;>
    by_cases ht : ev.task_ok = false <;> simp [hf, ht, hrc, hvo]

theorem on_event_primed_some (m : Mem) (k : Consts)
    (table : Nat → Option ProcessData)
    (offsets : Nat → Option RubyVersionOffsets)
    (enable : Bool) (et : EventType) (ev : EventCtx)
    (i0 : InternState) (r0 : List Nat) (pd pd1 : ProcessData)
    (vo : RubyVersionOffsets)
    (hpd : table ev.pid = some pd) (hf : pd.rb_frame_addr ≠ 0)
    (ht : ev.task_ok = true)
    (hrc : pid_race_check enable pd ev.task_start_time = some pd1)
    (hvo : offsets pd1.rb_version = some vo) :
    on_event m k table offsets enable et ev i0 r0 =
      ⟨some pd1,
        some (prime_sample m k vo et ev pd1.rb_frame_addr pd1.rb_version
          i0 r0)⟩ := by
  unfold on_event
  rw [hpd]
  simp [hf, ht, hrc, hvo]

theorem pid_race_check_mismatch (pd : ProcessData) (t : Nat)
    (h0 : pd.start_time ≠ 0) (hne : pd.start_time ≠ t) :
    pid_race_check true pd t = none := by
  unfold pid_race_check
  simp [h0, hne]

theorem pid_race_check_backfill (pd : ProcessData) (t : Nat)
    (h0 : pd.start_time = 0) :
    pid_race_check true pd t = some { pd with start_time := t } := by
  unfold pid_race_check
  simp [h0]

/-- C5: with the PID-reuse guard enabled, on a sampled event for a
registered process with a live task: when the recorded start_time is a
nonzero value differing from the observed task start time, the entry
program aborts (nothing is primed, nothing is published, the record is
left unchanged); when the recorded start_time is zero, the observed start
time is stored into the ProcessRecord and sampling proceeds past the
guard (the sample is primed whenever the version offsets exist). -/
theorem claim_C5 (m : Mem) (k : Consts)
    (table : Nat → Option ProcessData)
    (offsets : Nat → Option RubyVersionOffsets)
    (et : EventType) (ev : EventCtx) (i0 : InternState) (r0 : List Nat)
    (pd : ProcessData)
    (hpd : table ev.pid = some pd)
    (hf : pd.rb_frame_addr ≠ 0)
    (ht : ev.task_ok = true) :
    (pd.start_time ≠ 0 → pd.start_time ≠ ev.task_start_time →
      (on_event m k table offsets true et ev i0 r0).primed = none ∧
      sampleEvent m k table offsets true et ev i0 r0 = [] ∧
      (on_event m k table offsets true et ev i0 r0).process_data =
        some pd) ∧
    (pd.start_time = 0 →
      (on_event m k table offsets true et ev i0 r0).process_data =
        some { pd with start_time := ev.task_start_time } ∧
      (∀ vo, offsets pd.rb_version = some vo →
        (on_event m k table offsets true et ev i0 r0).primed =
          some (prime_sample m k vo et ev pd.rb_frame_addr pd.rb_version
            i0 r0))) := by
  constructor
  · intro h0 hne
    have hrc := pid_race_check_mismatch pd ev.task_start_time h0 hne
    have hprimed :=
      on_event_primed_none_race m k table offsets true et ev i0 r0 pd hpd hrc
    refine ⟨hprimed,
      sampleEvent_of_primed_none m k table offsets true et ev i0 r0 hprimed,
      ?_⟩
    unfold on_event
    rw [hpd]
    simp [hf, ht, hrc]
  · intro h0
    have hrc := pid_race_check_backfill pd ev.task_start_time h0
    constructor
    · unfold on_event
      rw [hpd]
      rcases hvo : offsets pd.rb_version with _ | vo <;>
        simp [hf, ht, hrc, hvo]
    · intro vo hvo
      have := on_event_primed_some m k table offsets true et ev i0 r0 pd
        { pd with start_time := ev.task_start_time } vo hpd hf ht hrc hvo
      rw [this]

theorem claim_C5_witness :
    ((on_event memE KA tableE2 offs0 true EventType.unknown evE
        ⟨[], []⟩ []).primed = none ∧
      sampleEvent memE KA tableE2 offs0 true EventType.unknown evE
        ⟨[], []⟩ [] = [] ∧
      (on_event memE KA tableE2 offs0 true EventType.unknown evE
        ⟨[], []⟩ []).process_data = some pdE2) ∧
    ((on_event memE KA tableE offs0 true EventType.unknown evE
        ⟨[], []⟩ []).process_data =
        some { pdE with start_time := evE.task_start_time } ∧
      (on_event memE KA tableE offs0 true EventType.unknown evE
        ⟨[], []⟩ []).primed =
        some (prime_sample memE KA V0 EventType.unknown evE
          pdE.rb_frame_addr pdE.rb_version ⟨[], []⟩ [])) :=
  ⟨(claim_C5 memE KA tableE2 offs0 EventType.unknown evE ⟨[], []⟩ []
      pdE2 rfl (by decide) rfl).1 (by decide) (by decide),
    ((claim_C5 memE KA tableE offs0 EventType.unknown evE ⟨[], []⟩ []
      pdE rfl (by decide) rfl).2 rfl).1,
    ((claim_C5 memE KA tableE offs0 EventType.unknown evE ⟨[], []⟩ []
      pdE rfl (by decide) rfl).2 rfl).2 V0 rfl⟩

/-- C7: a sampled event publishes at most one StackRecord; every aborted
entry (unregistered pid, zero thread-global address, null task, PID-reuse
mismatch, missing version offsets) publishes nothing, and an event whose
entry program primes a sample publishes exactly the record finalised by
the last walker invocation of the chain. -/
theorem claim_C7 (m : Mem) (k : Consts)
    (table : Nat → Option ProcessData)
    (offsets : Nat → Option RubyVersionOffsets)
    (enable : Bool) (et : EventType) (ev : EventCtx)
    (i0 : InternState) (r0 : List Nat) :
    (sampleEvent m k table offsets enable et ev i0 r0).length ≤ 1 ∧
    (table ev.pid = none →
      sampleEvent m k table offsets enable et ev i0 r0 = []) ∧
    (∀ pd, table ev.pid = some pd → pd.rb_frame_addr = 0 →
      sampleEvent m k table offsets enable et ev i0 r0 = []) ∧
    (∀ pd, table ev.pid = some pd → ev.task_ok = false →
      sampleEvent m k table offsets enable et ev i0 r0 = []) ∧
    (∀ pd, table ev.pid = some pd → enable = true → pd.start_time ≠ 0 →
      pd.start_time ≠ ev.task_start_time →
      sampleEvent m k table offsets enable et ev i0 r0 = []) ∧
    (∀ pd pd1, table ev.pid = some pd →
      pid_race_check enable pd ev.task_start_time = some pd1 →
      offsets pd1.rb_version = none →
      sampleEvent m k table offsets enable et ev i0 r0 = []) ∧
    (∀ c fin,
      (on_event m k table offsets enable et ev i0 r0).primed = some c →
      walk_ruby_stack_chain m k offsets c = some fin →
      sampleEvent m k table offsets enable et ev i0 r0 = [fin.stack]) := by
  refine ⟨?_, ?_, ?_, ?_, ?_, ?_, ?_⟩
  · unfold sampleEvent
    rcases hp : (on_event m k table offsets enable et ev i0 r0).primed
      with _ | c
    · simp
    · simp only
      rcases hc : walk_ruby_stack_chain m k offsets c with _ | fin <;> simp
  · intro h
    exact sampleEvent_of_primed_none m k table offsets enable et ev i0 r0
      (on_event_primed_none_table m k table offsets enable et ev i0 r0 h)
  · intro pd hpd hf
    exact sampleEvent_of_primed_none m k table offsets enable et ev i0 r0
      (on_event_primed_none_frame m k table offsets enable et ev i0 r0 pd
        hpd hf)
  · intro pd hpd ht
    exact sampleEvent_of_primed_none m k table offsets enable et ev i0 r0
      (on_event_primed_none_task m k table offsets enable et ev i0 r0 pd
        hpd ht)
  · intro pd hpd henable h0 hne
    subst henable
    exact sampleEvent_of_primed_none m k table offsets true et ev i0 r0
      (on_event_primed_none_race m k table offsets true et ev i0 r0 pd hpd
        (pid_race_check_mismatch pd ev.task_start_time h0 hne))
  · intro pd pd1 hpd hrc hvo
    exact sampleEvent_of_primed_none m k table offsets enable et ev i0 r0
      (on_event_primed_none_offsets m k table offsets enable et ev i0 r0
        pd pd1 hpd hrc hvo)
  · intro c fin hp hc
    exact sampleEvent_of_primed_chain m k table offsets enable et ev i0 r0
      c fin hp hc

theorem claim_C7_witness :
    (sampleEvent memE KA tableE offs0 true EventType.unknown evE
      ⟨[], []⟩ []).length ≤ 1 ∧
    sampleEvent memE KA (fun _ => none) offs0 true EventType.unknown evE
      ⟨[], []⟩ [] = [] ∧
    sampleEvent memE KA tableE offs0 true EventType.unknown evE
      ⟨[], []⟩ [] = [finE.stack] :=
  ⟨(claim_C7 memE KA tableE offs0 true EventType.unknown evE ⟨[], []⟩ []).1,
    (claim_C7 memE KA (fun _ => none) offs0 true EventType.unknown evE
      ⟨[], []⟩ []).2.1 rfl,
    (claim_C7 memE KA tableE offs0 true EventType.unknown evE
      ⟨[], []⟩ []).2.2.2.2.2.2 primedE finE rfl
      (chain_stop memE KA offs0 primedE V0 rfl (by decide))⟩

/-- C8: when the entry program does not abort, the SampleState it primes
has base_stack = vm + value_size * vm_size - 2 * control_frame_size in
wrap-around 64-bit arithmetic (vm and vm_size read through the
current-thread / main-thread / execution-context pointer chain),
expected_size = (base_stack - cfp) / control_frame_size computed from the
cfp read out of the execution context before any adjustment, an empty
frame array (size 0), program count 0, and the walking pointer set to
cfp + control_frame_size. -/
theorem claim_C8 (m : Mem) (k : Consts)
    (table : Nat → Option ProcessData)
    (offsets : Nat → Option RubyVersionOffsets)
    (enable : Bool) (et : EventType) (ev : EventCtx)
    (i0 : InternState) (r0 : List Nat) (pd pd1 : ProcessData)
    (vo : RubyVersionOffsets) (c : Ctx)
    (hpd : table ev.pid = some pd) (hf : pd.rb_frame_addr ≠ 0)
    (ht : ev.task_ok = true)
    (hrc : pid_race_check enable pd ev.task_start_time = some pd1)
    (hvo : offsets pd1.rb_version = some vo)
    (hprimed :
      (on_event m k table offsets enable et ev i0 r0).primed = some c) :
    let rct := m.r8 (u64 pd1.rb_frame_addr)
    let mth := m.r8 (u64 (rct + vo.main_thread_offset))
    let ec := m.r8 (u64 (mth + vo.ec_offset))
    let vm := m.r8 (u64 (ec + vo.vm_offset))
    let vmsz := m.r8 (u64 (ec + vo.vm_size_offset))
    let bs := sub64 (vm + k.rb_value_sizeof * vmsz)
      (2 * vo.control_frame_t_sizeof)
    let cfp0 := m.r8 (u64 (ec + vo.cfp_offset))
    c.base_stack = bs ∧
    c.stack.expected_size = sub64 bs cfp0 / vo.control_frame_t_sizeof ∧
    c.stack.frames = [] ∧
    c.ruby_stack_program_count = 0 ∧
    c.cfp = u64 (cfp0 + vo.control_frame_t_sizeof) := by
  have heq := on_event_primed_some m k table offsets enable et ev i0 r0
    pd pd1 vo hpd hf ht hrc hvo
  rw [heq] at hprimed
  have hc : c = prime_sample m k vo et ev pd1.rb_frame_addr pd1.rb_version
      i0 r0 :=
    (Option.some.inj hprimed).symm
  subst hc
  exact ⟨rfl, rfl, rfl, rfl, rfl⟩

theorem claim_C8_witness :
    let pd1 : ProcessData := ⟨1000, 0, 6⟩
    let rct := memE.r8 (u64 pd1.rb_frame_addr)
    let mth := memE.r8 (u64 (rct + V0.main_thread_offset))
    let ec := memE.r8 (u64 (mth + V0.ec_offset))
    let vm := memE.r8 (u64 (ec + V0.vm_offset))
    let vmsz := memE.r8 (u64 (ec + V0.vm_size_offset))
    let bs := sub64 (vm + KA.rb_value_sizeof * vmsz)
      (2 * V0.control_frame_t_sizeof)
    let cfp0 := memE.r8 (u64 (ec + V0.cfp_offset))
    primedE.base_stack = bs ∧
    primedE.stack.expected_size = sub64 bs cfp0 / V0.control_frame_t_sizeof ∧
    primedE.stack.frames = [] ∧
    primedE.ruby_stack_program_count = 0 ∧
    primedE.cfp = u64 (cfp0 + V0.control_frame_t_sizeof) :=
  claim_C8 memE KA tableE offs0 true EventType.unknown evE ⟨[], []⟩ []
    pdE ⟨1000, 0, 6⟩ V0 primedE rfl (by decide) rfl rfl rfl rfl

theorem find_or_insert_found (st : InternState) (rands : List Nat)
    (f : RubyFrame) (id : Nat)
    (h : lookupS2I st.stack_to_id f = some id) :
    find_or_insert_frame st rands f = (id, st, rands) := by
  unfold find_or_insert_frame
  rw [h]

theorem find_or_insert_new (st : InternState) (rands : List Nat)
    (f : RubyFrame) (h : lookupS2I st.stack_to_id f = none) :
    find_or_insert_frame st rands f =
      (rands.headD 0 % 2 ^ 32,
        ⟨(f, rands.headD 0 % 2 ^ 32) :: st.stack_to_id,
          (rands.headD 0 % 2 ^ 32, f) :: st.id_to_stack⟩,
        rands.tail) := by
  unfold find_or_insert_frame
  rw [h]

theorem appendFrame_skip (k : Consts) (cf : RubyFrame) (c : Ctx)
    (h : ¬ c.stack.frames.length < k.max_stack) :
    appendFrame k cf c = c := by
  unfold appendFrame
  rw [if_neg h]

theorem appendFrame_found (k : Consts) (cf : RubyFrame) (c : Ctx) (id : Nat)
    (hlt : c.stack.frames.length < k.max_stack)
    (h : lookupS2I c.intern.stack_to_id cf = some id) :
    appendFrame k cf c =
      { c with
          stack := { c.stack with frames := c.stack.frames ++ [id] }
          appends := c.appends ++ [(id, cf)]
          intern_log := c.intern_log ++ [cf] } := by
  unfold appendFrame
  rw [if_pos hlt, find_or_insert_found c.intern c.rands cf id h]

theorem appendFrame_new (k : Consts) (cf : RubyFrame) (c : Ctx)
    (hlt : c.stack.frames.length < k.max_stack)
    (h : lookupS2I c.intern.stack_to_id cf = none) :
    appendFrame k cf c =
      { c with
          stack :=
            { c.stack with
                frames := c.stack.frames ++ [c.rands.headD 0 % 2 ^ 32] }
          intern :=
            ⟨(cf, c.rands.headD 0 % 2 ^ 32) :: c.intern.stack_to_id,
              (c.rands.headD 0 % 2 ^ 32, cf) :: c.intern.id_to_stack⟩
          rands := c.rands.tail
          appends := c.appends ++ [(c.rands.headD 0 % 2 ^ 32, cf)]
          intern_log := c.intern_log ++ [cf] } := by
  unfold appendFrame
  rw [if_pos hlt, find_or_insert_new c.intern c.rands cf h]

theorem appendFrame_C2 (k : Consts) (rlen : Nat) (cf : RubyFrame) (c : Ctx)
    (hlen0 : k.max_stack ≤ rlen)
    (h1 : InternWF c.intern) (h2 : ∀ x ∈ c.rands, x < 2 ^ 32)
    (h3 : c.rands.Nodup)
    (h4 : ∀ x ∈ c.rands, lookupI2S c.intern.id_to_stack x = none)
    (h5 : rlen ≤ c.rands.length + c.stack.frames.length)
    (h6 : ∀ p ∈ c.appends, lookupI2S c.intern.id_to_stack p.1 = some p.2)
    (h7 : c.stack.frames = c.appends.map Prod.fst) :
    InternWF (appendFrame k cf c).intern ∧
    (∀ x ∈ (appendFrame k cf c).rands, x < 2 ^ 32) ∧
    (appendFrame k cf c).rands.Nodup ∧
    (∀ x ∈ (appendFrame k cf c).rands,
      lookupI2S (appendFrame k cf c).intern.id_to_stack x = none) ∧
    rlen ≤ (appendFrame k cf c).rands.length +
      (appendFrame k cf c).stack.frames.length ∧
    (∀ p ∈ (appendFrame k cf c).appends,
      lookupI2S (appendFrame k cf c).intern.id_to_stack p.1 = some p.2) ∧
    (appendFrame k cf c).stack.frames =
      (appendFrame k cf c).appends.map Prod.fst := by
  by_cases hlt : c.stack.frames.length < k.max_stack
  · rcases hfind : lookupS2I c.intern.stack_to_id cf with _ | id
    · -- miss: a fresh id is drawn and inserted into both maps
      have hne : c.rands ≠ [] := by
        intro h
        rw [h] at h5
        simp at h5
        omega
      rcases hr : c.rands with _ | ⟨x, t⟩
      · exact absurd hr hne
      · have hx : x < 2 ^ 32 := h2 x (by rw [hr]; exact List.mem_cons_self x t)
        have hrmod : c.rands.headD 0 % 2 ^ 32 = x := by
          rw [hr]
          exact Nat.mod_eq_of_lt hx
        have hfx : lookupI2S c.intern.id_to_stack x = none :=
          h4 x (by rw [hr]; exact List.mem_cons_self x t)
        have hxt : x ∉ t := by
          rw [hr] at h3
          exact (List.nodup_cons.1 h3).1
        rw [appendFrame_new k cf c hlt hfind, hrmod]
        have htail : c.rands.tail = t := by rw [hr]; rfl
        rw [htail]
        refine ⟨?_, ?_, ?_, ?_, ?_, ?_, ?_⟩
        · intro f i hfi
          dsimp only at hfi ⊢
          rw [lookupS2I] at hfi
          by_cases hcf : cf = f
          · rw [if_pos hcf] at hfi
            rcases Option.some.inj hfi with rfl
            rw [lookupI2S, if_pos rfl, hcf]
          · rw [if_neg hcf] at hfi
            have hold := h1 f i hfi
            have hix : i ≠ x := by
              intro hix
              rw [hix] at hold
              rw [hold] at hfx
              cases hfx
            rw [lookupI2S, if_neg (fun hxi => hix hxi.symm)]
            exact hold
        · intro y hy
          exact h2 y (by rw [hr]; exact List.mem_cons_of_mem x hy)
        · rw [hr] at h3
          exact (List.nodup_cons.1 h3).2
        · intro y hy
          dsimp only
          have hyx : y ≠ x := fun hyx => hxt (hyx ▸ hy)
          rw [lookupI2S, if_neg (fun hxy => hyx hxy.symm)]
          exact h4 y (by rw [hr]; exact List.mem_cons_of_mem x hy)
        · dsimp only
          rw [List.length_append]
          have hlen1 : c.rands.length = t.length + 1 := by rw [hr]; rfl
          simp only [List.length_singleton]
          omega
        · intro p hp
          dsimp only at hp ⊢
          rcases List.mem_append.1 hp with hmem | hmem
          · have hold := h6 p hmem
            have hpx : p.1 ≠ x := by
              intro hpx
              rw [hpx] at hold
              rw [hold] at hfx
              cases hfx
            rw [lookupI2S, if_neg (fun hxp => hpx hxp.symm)]
            exact hold
          · rcases List.mem_singleton.1 hmem with rfl
            rw [lookupI2S, if_pos rfl]
        · dsimp only
          rw [List.map_append, h7]
          rfl
    · -- hit: the stored id is returned, maps unchanged
      rw [appendFrame_found k cf c id hlt hfind]
      refine ⟨h1, h2, h3, h4, ?_, ?_, ?_⟩
      · dsimp only
        rw [List.length_append]
        omega
      · intro p hp
        dsimp only at hp ⊢
        rcases List.mem_append.1 hp with hmem | hmem
        · exact h6 p hmem
        · rcases List.mem_singleton.1 hmem with rfl
          exact h1 cf id hfind
      · dsimp only
        rw [List.map_append, h7]
        rfl
  · rw [appendFrame_skip k cf c hlt]
    exact ⟨h1, h2, h3, h4, h5, h6, h7⟩

theorem frameStep_C2_inv (m : Mem) (k : Consts) (vo : RubyVersionOffsets)
    (rlen : Nat) (cf : RubyFrame) (c : Ctx)
    (hlen0 : k.max_stack ≤ rlen)
    (h1 : InternWF c.intern) (h2 : ∀ x ∈ c.rands, x < 2 ^ 32)
    (h3 : c.rands.Nodup)
    (h4 : ∀ x ∈ c.rands, lookupI2S c.intern.id_to_stack x = none)
    (h5 : rlen ≤ c.rands.length + c.stack.frames.length)
    (h6 : ∀ p ∈ c.appends, lookupI2S c.intern.id_to_stack p.1 = some p.2)
    (h7 : c.stack.frames = c.appends.map Prod.fst) :
    InternWF (frameStep m k vo cf c).1.intern ∧
    (∀ x ∈ (frameStep m k vo cf c).1.rands, x < 2 ^ 32) ∧
    (frameStep m k vo cf c).1.rands.Nodup ∧
    (∀ x ∈ (frameStep m k vo cf c).1.rands,
      lookupI2S (frameStep m k vo cf c).1.intern.id_to_stack x = none) ∧
    rlen ≤ (frameStep m k vo cf c).1.rands.length +
      (frameStep m k vo cf c).1.stack.frames.length ∧
    (∀ p ∈ (frameStep m k vo cf c).1.appends,
      lookupI2S (frameStep m k vo cf c).1.intern.id_to_stack p.1 =
        some p.2) ∧
    (frameStep m k vo cf c).1.stack.frames =
      (frameStep m k vo cf c).1.appends.map Prod.fst := by
  by_cases hb : c.base_stack < c.cfp
  · rw [frameStep_break m k vo cf c hb]
    exact ⟨h1, h2, h3, h4, h5, h6, h7⟩
  · rw [frameStep_go m k vo cf c hb]
    obtain ⟨hstack, hbase, hcfp, hintern, hrands, happ, hilog, hproc, hpre⟩ :=
      decodeCurrent_ctx_fields m k vo cf
        { c with prefetch_log := c.prefetch_log ++ [c.cfp] }
    have h1' : InternWF (decodeCurrent m k vo cf
        { c with prefetch_log := c.prefetch_log ++ [c.cfp] }).2.intern := by
      rw [hintern]; exact h1
    have h2' : ∀ x ∈ (decodeCurrent m k vo cf
        { c with prefetch_log := c.prefetch_log ++ [c.cfp] }).2.rands,
        x < 2 ^ 32 := by
      rw [hrands]; exact h2
    have h3' : (decodeCurrent m k vo cf
        { c with prefetch_log := c.prefetch_log ++ [c.cfp] }).2.rands.Nodup := by
      rw [hrands]; exact h3
    have h4' : ∀ x ∈ (decodeCurrent m k vo cf
        { c with prefetch_log := c.prefetch_log ++ [c.cfp] }).2.rands,
        lookupI2S (decodeCurrent m k vo cf
          { c with prefetch_log :=
            c.prefetch_log ++ [c.cfp] }).2.intern.id_to_stack x = none := by
      rw [hrands, hintern]; exact h4
    have h5' : rlen ≤ (decodeCurrent m k vo cf
        { c with prefetch_log := c.prefetch_log ++ [c.cfp] }).2.rands.length +
        (decodeCurrent m k vo cf
          { c with prefetch_log :=
            c.prefetch_log ++ [c.cfp] }).2.stack.frames.length := by
      rw [hrands, hstack]; exact h5
    have h6' : ∀ p ∈ (decodeCurrent m k vo cf
        { c with prefetch_log := c.prefetch_log ++ [c.cfp] }).2.appends,
        lookupI2S (decodeCurrent m k vo cf
          { c with prefetch_log :=
            c.prefetch_log ++ [c.cfp] }).2.intern.id_to_stack p.1 =
          some p.2 := by
      rw [happ, hintern]; exact h6
    have h7' : (decodeCurrent m k vo cf
        { c with prefetch_log := c.prefetch_log ++ [c.cfp] }).2.stack.frames =
        (decodeCurrent m k vo cf
          { c with prefetch_log :=
            c.prefetch_log ++ [c.cfp] }).2.appends.map Prod.fst := by
      rw [hstack, happ]; exact h7
    exact appendFrame_C2 k rlen _ _ hlen0 h1' h2' h3' h4' h5' h6' h7'

/-- C2 (amended): provided the pseudo-random id stream consumed during the
sample is collision-free (its values are duplicate-free 32-bit values, none
already present in id_to_stack, and long enough that it cannot run dry:
at least MAX_STACK entries) and the two intern maps agree beforehand, every
(id, frame) pair appended by the walker still satisfies
id_to_stack[id] = frame when the record is published, and the published
frame-id array is exactly the ids of those pairs in order.  Without the
collision-freedom proviso the property fails (see the counterexample):
bpf_get_prandom_u32 can repeat an id, and the second insertion overwrites
id_to_stack for the first. -/
theorem claim_C2 (m : Mem) (k : Consts)
    (offsets : Nat → Option RubyVersionOffsets) (c0 fin : Ctx)
    (hwf : InternWF c0.intern)
    (hrange : ∀ x ∈ c0.rands, x < 2 ^ 32)
    (hnodup : c0.rands.Nodup)
    (hfresh : ∀ x ∈ c0.rands, lookupI2S c0.intern.id_to_stack x = none)
    (hlen : k.max_stack ≤ c0.rands.length)
    (hframes : c0.stack.frames = [])
    (happends : c0.appends = [])
    (hchain : walk_ruby_stack_chain m k offsets c0 = some fin) :
    fin.stack.frames = fin.appends.map Prod.fst ∧
    (∀ p ∈ fin.appends,
      lookupI2S fin.intern.id_to_stack p.1 = some p.2) := by
  have hP : (fun c => InternWF c.intern ∧
      (∀ x ∈ c.rands, x < 2 ^ 32) ∧
      c.rands.Nodup ∧
      (∀ x ∈ c.rands, lookupI2S c.intern.id_to_stack x = none) ∧
      c0.rands.length ≤ c.rands.length + c.stack.frames.length ∧
      (∀ p ∈ c.appends, lookupI2S c.intern.id_to_stack p.1 = some p.2) ∧
      c.stack.frames = c.appends.map Prod.fst) fin := by
    refine chain_ind m k offsets
      (fun c => InternWF c.intern ∧
        (∀ x ∈ c.rands, x < 2 ^ 32) ∧
        c.rands.Nodup ∧
        (∀ x ∈ c.rands, lookupI2S c.intern.id_to_stack x = none) ∧
        c0.rands.length ≤ c.rands.length + c.stack.frames.length ∧
        (∀ p ∈ c.appends, lookupI2S c.intern.id_to_stack p.1 = some p.2) ∧
        c.stack.frames = c.appends.map Prod.fst) ?_ ?_ c0 fin hchain ?_
    · intro vo c _ hc
      refine walk_ruby_stack_ind m k vo
        (fun c => InternWF c.intern ∧
          (∀ x ∈ c.rands, x < 2 ^ 32) ∧
          c.rands.Nodup ∧
          (∀ x ∈ c.rands, lookupI2S c.intern.id_to_stack x = none) ∧
          c0.rands.length ≤ c.rands.length + c.stack.frames.length ∧
          (∀ p ∈ c.appends, lookupI2S c.intern.id_to_stack p.1 = some p.2) ∧
          c.stack.frames = c.appends.map Prod.fst) ?_ ?_ c hc
      · intro cf c hc
        obtain ⟨h1, h2, h3, h4, h5, h6, h7⟩ := hc
        exact frameStep_C2_inv m k vo c0.rands.length cf c hlen
          h1 h2 h3 h4 h5 h6 h7
      · intro c hc
        exact hc
    · intro c hc
      exact hc
    · refine ⟨hwf, hrange, hnodup, hfresh, by omega, ?_, ?_⟩
      · intro p hp
        rw [happends] at hp
        cases hp
      · rw [hframes, happends]
        rfl
  exact ⟨hP.2.2.2.2.2.2, hP.2.2.2.2.2.1⟩

theorem claim_C2_witness :
    finA2.stack.frames = finA2.appends.map Prod.fst ∧
    (∀ p ∈ finA2.appends,
      lookupI2S finA2.intern.id_to_stack p.1 = some p.2) :=
  claim_C2 memA KS offs0 ctxA2 finA2
    (by intro f i h; simp [lookupS2I] at h)
    (by decide) (by decide) (by decide) (by decide) rfl rfl
    (chain_stop memA KS offs0 ctxA2 V0 rfl (by decide))

/-- C2 counterexample: with the pseudo-random source drawing the id 7 for
both of two distinct frames in one published sample, position 0 of the
record carries id 7 for the all-zero frame record, but by publication
id_to_stack maps 7 to the native frame interned at position 1: the mapping
does not hold the record that was passed to the interner for position 0,
refuting the claim as stated. -/
theorem claim_C2_counterexample :
    walk_ruby_stack_chain memA KA offs0 ctxA = some finA ∧
    finA.stack.frames = [7, 7] ∧
    finA.appends[0]? = some (7, zeroFrame KA) ∧
    lookupI2S finA.intern.id_to_stack 7 = some frameNatA ∧
    frameNatA ≠ zeroFrame KA :=
  ⟨chain_stop memA KA offs0 ctxA V0 rfl (by decide),
    by decide, by decide, by decide, by decide⟩

theorem appendFrame_length (k : Consts) (cf : RubyFrame) (c : Ctx) :
    (appendFrame k cf c).stack.frames.length =
      if c.stack.frames.length < k.max_stack then
        c.stack.frames.length + 1
      else c.stack.frames.length := by
  unfold appendFrame
  dsimp only
  split
  · simp
  · rfl

theorem frameStep_C10_inv (m : Mem) (k : Consts) (vo : RubyVersionOffsets)
    (cf : RubyFrame) (c : Ctx) (b r rv : Nat)
    (hwrap : b + vo.control_frame_t_sizeof < 2 ^ 64)
    (h1 : c.base_stack = b) (h2 : c.rb_version = rv)
    (h3 : c.cfp = r + (c.processed + 1) * vo.control_frame_t_sizeof)
    (h4 : c.cfp ≤ b + vo.control_frame_t_sizeof)
    (h5 : c.stack.frames.length = min c.processed k.max_stack)
    (h6 : c.stack.expected_size = (b - r) / vo.control_frame_t_sizeof) :
    (frameStep m k vo cf c).1.base_stack = b ∧
    (frameStep m k vo cf c).1.rb_version = rv ∧
    (frameStep m k vo cf c).1.cfp =
      r + ((frameStep m k vo cf c).1.processed + 1) *
        vo.control_frame_t_sizeof ∧
    (frameStep m k vo cf c).1.cfp ≤ b + vo.control_frame_t_sizeof ∧
    (frameStep m k vo cf c).1.stack.frames.length =
      min (frameStep m k vo cf c).1.processed k.max_stack ∧
    (frameStep m k vo cf c).1.stack.expected_size =
      (b - r) / vo.control_frame_t_sizeof := by
  by_cases hb : c.base_stack < c.cfp
  · rw [frameStep_break m k vo cf c hb]
    exact ⟨h1, h2, h3, h4, h5, h6⟩
  · rw [frameStep_go m k vo cf c hb]
    have hle : c.cfp ≤ b := by omega
    obtain ⟨hstack, hbase, hcfp2, hintern, hrands, happ, hilog, hproc,
      hpre, hcnt, hrb⟩ :=
      decodeCurrent_ctx_fields m k vo cf
        { c with prefetch_log := c.prefetch_log ++ [c.cfp] }
    have hlt : c.cfp + vo.control_frame_t_sizeof < 2 ^ 64 := by omega
    have hmod : u64 (c.cfp + vo.control_frame_t_sizeof) =
        c.cfp + vo.control_frame_t_sizeof := Nat.mod_eq_of_lt hlt
    refine ⟨?_, ?_, ?_, ?_, ?_, ?_⟩
    · rw [(advance_fields _ _).2.1, (appendFrame_fields _ _ _).1, hbase]
      exact h1
    · rw [(advance_fields _ _).2.2.2.1, (appendFrame_fields _ _ _).2.2.2.1,
        hrb]
      exact h2
    · rw [(advance_fields _ _).2.2.2.2.2.2.2.2.2.2.1,
        (advance_fields _ _).2.2.2.2.2.2.2.2.2.2.2,
        (appendFrame_fields _ _ _).2.1,
        (appendFrame_fields _ _ _).2.2.2.2.2.2.1, hcfp2, hproc]
      show u64 (c.cfp + vo.control_frame_t_sizeof) =
        r + (c.processed + 1 + 1) * vo.control_frame_t_sizeof
      rw [hmod, Nat.succ_mul (c.processed + 1) vo.control_frame_t_sizeof]
      omega
    · rw [(advance_fields _ _).2.2.2.2.2.2.2.2.2.2.1,
        (appendFrame_fields _ _ _).2.1, hcfp2]
      show u64 (c.cfp + vo.control_frame_t_sizeof) ≤
        b + vo.control_frame_t_sizeof
      rw [hmod]
      omega
    · rw [(advance_fields _ _).2.2.2.2.2.2.2.2.2.2.2,
        (appendFrame_fields _ _ _).2.2.2.2.2.2.1, hproc]
      have hadv : (advance vo
          (appendFrame k
            (decodeCurrent m k vo cf
              { c with prefetch_log := c.prefetch_log ++ [c.cfp] }).1
            (decodeCurrent m k vo cf
              { c with prefetch_log := c.prefetch_log ++ [c.cfp] }).2)).stack =
          (appendFrame k
            (decodeCurrent m k vo cf
              { c with prefetch_log := c.prefetch_log ++ [c.cfp] }).1
            (decodeCurrent m k vo cf
              { c with prefetch_log := c.prefetch_log ++ [c.cfp] }).2).stack :=
        (advance_fields _ _).1
      rw [hadv, appendFrame_length]
      have hsf : (decodeCurrent m k vo cf
          { c with prefetch_log := c.prefetch_log ++ [c.cfp] }).2.stack =
          c.stack := hstack
      rw [hsf, h5]
      dsimp only
      rcases Nat.lt_or_ge c.processed k.max_stack with hm | hm
      · rw [if_pos (by omega)]
        omega
      · rw [if_neg (by omega)]
        omega
    · rw [(advance_fields _ _).1, (appendFrame_fields _ _ _).2.2.2.2.2.2.2.1,
        hstack]
      exact h6

/-- C10: for a primed sample whose expected_size = (base_stack - cfp) /
control_frame_size exceeds MAX_STACK (taking the arithmetic without 64-bit
wrap: cfp below base_stack and no overflow across the walk), if the walk
nevertheless finishes with status COMPLETE, the published record holds
exactly MAX_STACK frame ids, strictly fewer than expected_size; moreover
once the size has reached MAX_STACK each further loop iteration below the
top still advances cfp and still decodes interpreter frames (logging them)
but neither calls the interner nor appends an id. -/
theorem claim_C10 (m : Mem) (k : Consts)
    (offsets : Nat → Option RubyVersionOffsets) (c0 fin : Ctx)
    (vo : RubyVersionOffsets) (b r : Nat)
    (hoff : offsets c0.rb_version = some vo)
    (hcfs : 0 < vo.control_frame_t_sizeof)
    (hb : c0.base_stack = b)
    (hcfp : c0.cfp = r + vo.control_frame_t_sizeof)
    (hrb : r ≤ b)
    (hwrap : b + vo.control_frame_t_sizeof < 2 ^ 64)
    (hframes : c0.stack.frames = [])
    (hproc : c0.processed = 0)
    (hexp : c0.stack.expected_size = (b - r) / vo.control_frame_t_sizeof)
    (hmax : k.max_stack < (b - r) / vo.control_frame_t_sizeof)
    (hchain : walk_ruby_stack_chain m k offsets c0 = some fin)
    (hstatus : fin.stack.stack_status = StackStatus.complete) :
    fin.stack.frames.length = k.max_stack ∧
    fin.stack.frames.length < fin.stack.expected_size ∧
    (∀ (cf : RubyFrame) (c : Ctx),
      k.max_stack ≤ c.stack.frames.length →
      ¬ c.base_stack < c.cfp →
      (frameStep m k vo cf c).2.isSome = true ∧
      (frameStep m k vo cf c).1.stack.frames = c.stack.frames ∧
      (frameStep m k vo cf c).1.intern = c.intern ∧
      (frameStep m k vo cf c).1.intern_log = c.intern_log ∧
      (frameStep m k vo cf c).1.appends = c.appends ∧
      (frameStep m k vo cf c).1.cfp =
        u64 (c.cfp + vo.control_frame_t_sizeof) ∧
      (m.r8 (u64 (c.cfp + k.iseq_offset)) ≠ 0 →
        (frameStep m k vo cf c).1.decode_log =
          c.decode_log ++ [c.cfp])) := by
  have hP : (fun c => c.base_stack = b ∧ c.rb_version = c0.rb_version ∧
      c.cfp = r + (c.processed + 1) * vo.control_frame_t_sizeof ∧
      c.cfp ≤ b + vo.control_frame_t_sizeof ∧
      c.stack.frames.length = min c.processed k.max_stack ∧
      c.stack.expected_size = (b - r) / vo.control_frame_t_sizeof) fin := by
    refine chain_ind m k offsets
      (fun c => c.base_stack = b ∧ c.rb_version = c0.rb_version ∧
        c.cfp = r + (c.processed + 1) * vo.control_frame_t_sizeof ∧
        c.cfp ≤ b + vo.control_frame_t_sizeof ∧
        c.stack.frames.length = min c.processed k.max_stack ∧
        c.stack.expected_size = (b - r) / vo.control_frame_t_sizeof)
      ?_ ?_ c0 fin hchain ?_
    · intro vo1 c ho hc
      have hvo1 : vo1 = vo := by
        rw [hc.2.1] at ho
        rw [hoff] at ho
        exact (Option.some.inj ho).symm
      subst hvo1
      refine walk_ruby_stack_ind m k vo1
        (fun c => c.base_stack = b ∧ c.rb_version = c0.rb_version ∧
          c.cfp = r + (c.processed + 1) * vo1.control_frame_t_sizeof ∧
          c.cfp ≤ b + vo1.control_frame_t_sizeof ∧
          c.stack.frames.length = min c.processed k.max_stack ∧
          c.stack.expected_size = (b - r) / vo1.control_frame_t_sizeof)
        ?_ ?_ c hc
      · intro cf c hc
        obtain ⟨h1, h2, h3, h4, h5, h6⟩ := hc
        exact frameStep_C10_inv m k vo1 cf c b r c0.rb_version hwrap
          h1 h2 h3 h4 h5 h6
      · intro c hc
        exact hc
    · intro c hc
      exact hc
    · refine ⟨hb, rfl, ?_, ?_, ?_, hexp⟩
      · rw [hcfp, hproc]
        simp
      · rw [hcfp]
        omega
      · rw [hframes, hproc]
        simp
  obtain ⟨hfb, hfrv, hfcfp, hfle, hflen, hfexp⟩ := hP
  obtain ⟨hs, _, _⟩ := chain_final m k offsets c0 fin hchain
  have hcomp : fin.base_stack < fin.cfp := by
    by_contra hnc
    rw [if_neg hnc] at hs
    rw [hs] at hstatus
    simp at hstatus
  have hup : r + (fin.processed * vo.control_frame_t_sizeof +
      vo.control_frame_t_sizeof) ≤ b + vo.control_frame_t_sizeof := by
    have h := hfle
    rw [hfcfp, Nat.succ_mul] at h
    exact h
  have hlo : b < r + (fin.processed * vo.control_frame_t_sizeof +
      vo.control_frame_t_sizeof) := by
    have h := hcomp
    rw [hfb, hfcfp, Nat.succ_mul] at h
    exact h
  have hq1 : fin.processed * vo.control_frame_t_sizeof ≤ b - r := by omega
  have hq2 : b - r <
      (fin.processed + 1) * vo.control_frame_t_sizeof := by
    rw [Nat.succ_mul]
    omega
  have hPe : fin.processed = (b - r) / vo.control_frame_t_sizeof := by
    have hle2 : fin.processed ≤ (b - r) / vo.control_frame_t_sizeof :=
      (Nat.le_div_iff_mul_le hcfs).2 hq1
    have hlt2 : (b - r) / vo.control_frame_t_sizeof < fin.processed + 1 :=
      (Nat.div_lt_iff_lt_mul hcfs).2 hq2
    omega
  have hfull : k.max_stack < fin.processed := by
    rw [hPe]
    exact hmax
  refine ⟨?_, ?_, ?_⟩
  · rw [hflen]
    omega
  · rw [hflen, hfexp, ← hPe]
    omega
  · intro cf c hcap hnot
    rw [frameStep_go m k vo cf c hnot]
    by_cases hiseq : m.r8 (u64 (c.cfp + k.iseq_offset)) = 0
    · rw [decodeCurrent_native m k vo cf
        { c with prefetch_log := c.prefetch_log ++ [c.cfp] } hiseq]
      rw [appendFrame_skip k _ _ (by dsimp only; omega)]
      refine ⟨rfl, rfl, rfl, rfl, rfl, rfl, ?_⟩
      intro h0
      exact absurd hiseq h0
    · rw [decodeCurrent_iseq m k vo cf
        { c with prefetch_log := c.prefetch_log ++ [c.cfp] } hiseq]
      rw [appendFrame_skip k _ _ (by dsimp only; omega)]
      exact ⟨rfl, rfl, rfl, rfl, rfl, rfl, fun _ => rfl⟩

theorem claim_C10_witness :
    finT.stack.frames.length = KS.max_stack ∧
    finT.stack.frames.length < finT.stack.expected_size ∧
    (∀ (cf : RubyFrame) (c : Ctx),
      KS.max_stack ≤ c.stack.frames.length →
      ¬ c.base_stack < c.cfp →
      (frameStep mem0 KS V0 cf c).2.isSome = true ∧
      (frameStep mem0 KS V0 cf c).1.stack.frames = c.stack.frames ∧
      (frameStep mem0 KS V0 cf c).1.intern = c.intern ∧
      (frameStep mem0 KS V0 cf c).1.intern_log = c.intern_log ∧
      (frameStep mem0 KS V0 cf c).1.appends = c.appends ∧
      (frameStep mem0 KS V0 cf c).1.cfp =
        u64 (c.cfp + V0.control_frame_t_sizeof) ∧
      (mem0.r8 (u64 (c.cfp + KS.iseq_offset)) ≠ 0 →
        (frameStep mem0 KS V0 cf c).1.decode_log =
          c.decode_log ++ [c.cfp])) :=
  claim_C10 mem0 KS offs0 ctxT finT V0 132 100 rfl (by decide) rfl
    (by decide) (by decide) (by decide) rfl rfl (by decide) (by decide)
    (chain_stop mem0 KS offs0 ctxT V0 rfl (by decide)) (by decide)
